import Mathlib

/-!
Verification development for the vasm "naoto" syntax module
(src/syntax/naoto/syntax.c).

The source file is shallowly embedded below.  C strings become `List Char`
(`Str`); a C pointer into a NUL-terminated buffer becomes a suffix of such a
list, with the empty list playing the role of the terminating NUL.  Machine
integers that can wrap (the `unsigned` anonymous-label counter) are modelled
as `Nat` with an explicit `% 2^32`.  Calls into the assembler core or the CPU
backend (which are not part of this source file) are either modelled from the
specification (each such definition carries a doc comment starting with
"Modelled from the spec:") or condensed into observable events when no claim
depends on their internals.  The module is embedded as compiled for the
VASM_CPU_M68K configuration (the directive table's M68K branch), which is the
configuration the directive surface of the specification describes.
-/

set_option maxHeartbeats 1000000

namespace VasmNaoto

/-- Source text / C strings: a list of characters, NUL modelled by `[]`. -/
abbrev Str := List Char

/-- ASCII tolower, as used via `tolower((unsigned char)c)` in the source. -/
def cLower (c : Char) : Char :=
  if 'A' ≤ c ∧ c ≤ 'Z' then Char.ofNat (c.toNat + 32) else c

/-- ctype `isspace` for the ASCII range. -/
def cIsSpace (c : Char) : Bool :=
  c = ' ' ∨ c = '\t' ∨ c = '\n' ∨ c = '\x0d' ∨ c = '\x0b' ∨ c = '\x0c'

/-- ctype `isdigit`. -/
def cIsDigit (c : Char) : Bool := decide ('0' ≤ c ∧ c ≤ '9')

/-- ctype `isalpha` for ASCII. -/
def cIsAlpha (c : Char) : Bool :=
  decide (('a' ≤ c ∧ c ≤ 'z') ∨ ('A' ≤ c ∧ c ≤ 'Z'))

/-- ctype `isalnum` for ASCII. -/
def cIsAlnum (c : Char) : Bool := cIsAlpha c || cIsDigit c

/-- `isidchar` from syntax.c (identifier continuation characters). -/
def isidchar (c : Char) : Bool := cIsAlnum c || c = '_'

/-- Modelled from the spec: `ISIDSTART` is defined in the module's syntax.h
header, which is not part of the given source; an identifier starts with a
letter, an underscore or the dot (the `.label` branch of `get_local_label`
and the dotted directive spellings require '.' to start an identifier,
exactly as in the sibling oldstyle module this one is derived from). -/
def ISIDSTART (c : Char) : Bool := cIsAlpha c || c = '_' || c = '.'

/-- `ISIDCHAR`, which syntax.h ties to the source's `isidchar`. -/
def ISIDCHAR (c : Char) : Bool := isidchar c

/-- The comment character of this module (syntax.c: `char commentchar = ';'`). -/
def commentchar : Char := ';'

/-- The local-label introducer (syntax.c: `static char local_char = '.'`);
the `-altlocal` option changes it to '@', so functions that consult it take
it as an explicit argument `lc` and the driver passes this default. -/
def local_char : Char := '.'

/-- Core macro `ISEOL`: end of line is NUL or the comment character. -/
def ISEOL : Str → Bool
  | [] => true
  | c :: _ => c = commentchar

/-- `skip` from syntax.c: advance over whitespace. -/
def skip (s : Str) : Str := s.dropWhile cIsSpace

/-- Modelled from the spec: `START_PARENTH` from the CPU backend; for the
M68K configuration an operand-grouping parenthesis is '('. -/
def START_PARENTH (c : Char) : Bool := c = '('

/-- Modelled from the spec: `END_PARENTH` from the CPU backend, ')'. -/
def END_PARENTH (c : Char) : Bool := c = ')'

/-- Modelled from the spec: `skip_string` from the assembler core advances
past a quoted string literal (string-literal classification is a lexical
helper of this module's spec).  `s` points at the opening quote; the result
points just past the closing quote (or at NUL when unterminated). -/
def skipStrAux : Str → Char → Str
  | [], _ => []
  | c :: r, q => if c = q then r else skipStrAux r q

def skip_string (s : Str) (q : Char) : Str :=
  match s with
  | [] => []
  | _ :: r => skipStrAux r q

/-- `skip_operand` from syntax.c: scan one operand, parenthesis- and
quote-aware, stopping at a top-level ',' or the comment character or NUL.
The two diagnostics for unbalanced parentheses (syntax_error(3)/(4)) are not
modelled: no claim concerns them and the function's value is its stop
position.  A fuel argument makes the C `for(;;)` loop structural; the fuel
`s.length + 1` always suffices because every step consumes a character. -/
def skip_operand_aux : Nat → Str → Nat → Str
  | 0, s, _ => s
  | fuel + 1, s, par_cnt =>
    match s with
    | [] => []
    | c :: r =>
      if START_PARENTH c then skip_operand_aux fuel r (par_cnt + 1)
      else if END_PARENTH c then skip_operand_aux fuel r (par_cnt - 1)
      else if c = '\'' ∨ c = '\"' then skip_operand_aux fuel (skip_string s c) par_cnt
      else if par_cnt = 0 ∧ (c = ',' ∨ c = commentchar) then s
      else skip_operand_aux fuel r par_cnt

def skip_operand (s : Str) : Str := skip_operand_aux (s.length + 1) s 0

/-- Modelled from the spec: `skip_identifier` from the assembler core scans
one identifier (identifier classification): returns the position after it,
or `none` when `s` does not start an identifier. -/
def skip_identifier (s : Str) : Option Str :=
  match s with
  | [] => none
  | c :: r => if ISIDSTART c then some (r.dropWhile ISIDCHAR) else none

/-- Modelled from the spec: `parse_identifier` from the assembler core reads
an identifier and returns its text together with the rest of the input. -/
def parse_identifier (s : Str) : Option (Str × Str) :=
  match s with
  | [] => none
  | c :: r =>
    if ISIDSTART c then some (c :: r.takeWhile ISIDCHAR, r.dropWhile ISIDCHAR)
    else none

/-- Modelled from the spec: `parse_name` from the assembler core reads a
(quoted) string operand, yielding its contents. -/
def parse_name (s : Str) : Option (Str × Str) :=
  match s with
  | q :: r =>
    if q = '\"' ∨ q = '\'' then
      some (r.takeWhile (fun c => decide (c ≠ q)), skipStrAux r q)
    else none
  | [] => none

/-! ## Expressions

The expression parser/evaluator is an external collaborator (spec §1, §6:
"expression parser/evaluator (parse + constant-fold + evaluate-to-integer
with a fail mode for non-constant expressions)").  It is modelled by a small
symbolic expression type: the directives below only ever build trees from
it, evaluate constants, or hand it on unchanged. -/

inductive Expr where
  | num (n : Int)
  | unk (t : Str)
  | add (a b : Expr)
  | sub (a b : Expr)
  | mul (a b : Expr)
  | band (a b : Expr)
  deriving DecidableEq, Repr

/-- Modelled from the spec: `parse_expr_tmplab` from the assembler core
parses one expression.  A decimal constant with an optional leading minus is
parsed into `Expr.num`; any other operand text becomes the opaque
`Expr.unk`.  Returns the expression and the rest of the line. -/
def parse_expr_tmplab (s : Str) : Expr × Str :=
  let s1 := skip s
  match s1 with
  | '-' :: d :: r =>
    if cIsDigit d then
      let digits := d :: r.takeWhile cIsDigit
      (Expr.num (-(Int.ofNat (digits.foldl (fun a c => a * 10 + (c.toNat - 48)) 0))),
       r.dropWhile cIsDigit)
    else
      let e := skip_operand s1
      (Expr.unk (s1.take (s1.length - e.length)), e)
  | d :: r =>
    if cIsDigit d then
      let digits := d :: r.takeWhile cIsDigit
      (Expr.num (Int.ofNat (digits.foldl (fun a c => a * 10 + (c.toNat - 48)) 0)),
       r.dropWhile cIsDigit)
    else
      let e := skip_operand s1
      (Expr.unk (s1.take (s1.length - e.length)), e)
  | [] => (Expr.unk [], [])

/-- Modelled from the spec: `eval_expr` from the assembler core constant-folds
an expression, failing on non-constant input. -/
def eval_expr : Expr → Option Int
  | Expr.num n => some n
  | Expr.unk _ => none
  | Expr.add a b => do pure ((← eval_expr a) + (← eval_expr b))
  | Expr.sub a b => do pure ((← eval_expr a) - (← eval_expr b))
  | Expr.mul a b => do pure ((← eval_expr a) * (← eval_expr b))
  | Expr.band a b => do pure (Int.land (← eval_expr a) (← eval_expr b))

/-- Modelled from the spec: `parse_constexpr` from the assembler core parses
an expression and evaluates it, yielding 0 on a non-constant expression
(after the core's diagnostic, which is not an event of this module). -/
def parse_constexpr (s : Str) : Int × Str :=
  let (e, r) := parse_expr_tmplab s
  ((eval_expr e).getD 0, r)

/-! ## Local and anonymous labels (syntax.c lines 269-330, 1485-1528) -/

/-- The wrap modulus of the C `unsigned int` anonymous-label counter. -/
def UW : Nat := 4294967296

/-- Decimal digit character. -/
def digitChar (n : Nat) : Char := Char.ofNat (48 + n)

/-- Decimal rendering of a `Nat` (the model of `sprintf("%u", n)` /
`sprintf("%d", n)` for nonnegative values), with explicit fuel. -/
def decDigitsCore : Nat → Nat → List Char → List Char
  | 0, _, acc => acc
  | _ + 1, 0, acc => acc
  | fuel + 1, n, acc => decDigitsCore fuel (n / 10) (digitChar (n % 10) :: acc)

def decDigits (n : Nat) : List Char :=
  if n = 0 then ['0'] else decDigitsCore n n []

/-- Modelled from the spec: `make_local_label` from the assembler core builds
a canonical label name from a scope/global part and a local part (spec §4.4:
"canonical name = global + separator + local").  The separator character is
immaterial to the claims; the canonical name embeds both parts. -/
def make_local_label (glob loc : Str) : Str := glob ++ ' ' :: loc

/-- `skip_local` from syntax.c: local labels may start with a digit. -/
def skip_local (p : Str) : Option Str :=
  match p with
  | [] => none
  | c :: r =>
    if ISIDSTART c || cIsDigit c then some (r.dropWhile ISIDCHAR) else none

/-- The loop of the anonymous-reference scanner (syntax.c lines 318-323):
consume a run of '+'/'-' markers, incrementing/decrementing the unsigned
reference number with 32-bit wrap.  Returns the final number and the rest. -/
def anonLoop : Str → Nat → Nat × Str
  | [], r => (r, [])
  | c :: t, r =>
    if c = '+' then anonLoop t ((r + 1) % UW)
    else if c = '-' then anonLoop t ((r + (UW - 1)) % UW)
    else (r, c :: t)

/-- `get_local_label` from syntax.c (lines 282-330), for the current
anonymous counter `anon` and local-label character `lc`.  Returns the
canonical name and the updated scan position on success.  The counter is
only read here, never written. -/
def get_local_label (lc : Char) (anon : Nat) (start : Str) : Option (Str × Str) :=
  let s := start
  let p? := skip_local s
  match p? with
  | some p =>
    let glob := s.take (s.length - p.length)
    if p.headD '\x00' = ':' ∧ ISIDSTART (s.headD ' ') ∧
        s.headD ' ' ≠ lc ∧ glob.getLastD ' ' ≠ '$' then
      -- global.local label: the second identifier follows the ':'
      let s2 := p.tail
      match skip_local s2 with
      | some p2 =>
        let loc := s2.take (s2.length - p2.length)
        if loc.getLastD ' ' = '$' then
          some (make_local_label glob (loc.dropLast), skip p2)
        else
          some (make_local_label glob loc, skip p2)
      | none => none
    else if s.length - p.length > 1 ∧ s.headD ' ' = lc then
      -- .label
      some (make_local_label [] (glob.tail), skip p)
    else if s.length - p.length > 0 ∧ p.headD ' ' = '$' then
      -- label$
      some (make_local_label [] glob, skip (p.tail))
    else
      none
  | none =>
    match s with
    | ':' :: s1 =>
      match s1 with
      | c :: t =>
        if c = '+' ∨ c = '-' then
          let p := anonLoop t (if c = '+' then (anon + 1) % UW else anon)
          some (make_local_label [':'] (decDigits p.1), skip p.2)
        else none
      | [] => none
    | _ => none

/-- Modelled from the spec: `parse_symbol` from the assembler core resolves
a symbol spelling at the scan position: the four canonical local/anonymous
spellings first (via this module's `get_local_label`, spec §4.4 priority
order), then a plain identifier.  Fails without moving otherwise. -/
def parse_symbol (lc : Char) (anon : Nat) (s : Str) : Option (Str × Str) :=
  match get_local_label lc anon s with
  | some (nm, r) => some (nm, r)
  | none => parse_identifier s

/-- The current-pc character (init_syntax: `current_pc_char = '*'`). -/
def current_pc_char : Char := '*'

/-- `parse_label_or_pc` from syntax.c (lines 1485-1528).  Input: the line
start and the anonymous counter.  Output: the recognized label name (`none`
models returning NULL), the updated start position (unchanged when NULL is
returned, since the C code assigns `*start` only under `if (name)`), and the
updated anonymous counter (incremented with 32-bit wrap by an anonymous
label definition). -/
def parse_label_or_pc (lc : Char) (start : Str) (anon : Nat) :
    Option Str × Str × Nat :=
  if start.headD '\x00' = ':' then
    -- anonymous label definition: ++anon_labno, then embed the new value
    (some (make_local_label [':'] (decDigits ((anon + 1) % UW))),
     skip start.tail, (anon + 1) % UW)
  else
    let lvalid := !(cIsSpace (start.headD '\x00'))
    let s := skip start
    match parse_symbol lc anon s with
    | some (name, s1) =>
      let s2 := skip s1
      if s2.headD '\x00' = ':' then
        if s2.tail.headD '\x00' = '+' ∨ s2.tail.headD '\x00' = '-' then
          (none, start, anon)
        else (some name, s2.tail, anon)
      else
        if !lvalid then (none, start, anon)
        else (some name, s2, anon)
    | none =>
      if s.headD '\x00' = current_pc_char ∧ !(ISIDCHAR (s.tail.headD ' ')) then
        (some [current_pc_char], skip s.tail, anon)
      else (none, start, anon)

/-! ## Structure templates (syntax.c lines 1387-1483)

A structure template is a section whose atoms were recorded by the
definition block; `execute_struct` walks them.  Atom storage and the atom
sink (`add_atom`, `clone_atom`, `new_data_atom`, ...) are external
collaborators: emitted atoms are modelled as an output event list `SEv`.
The byte image written by `setval` for a single constant is condensed into
the `dataAtomConst` event (its byte layout is target endianness, outside
this module). -/

/-- A `dblock`: size in bytes and the default data bytes. -/
structure DBk where
  size : Nat
  data : List Nat
  deriving DecidableEq, Repr

/-- An `sblock`: space count expression, element size, fill expression. -/
structure SBk where
  space_exp : Expr
  size : Nat
  fill : Expr
  deriving DecidableEq, Repr

/-- The atoms a structure template can hold (core atom types). -/
inductive SAtom where
  | data (align : Nat) (db : DBk)
  | space (align : Nat) (sb : SBk)
  | datadef (align : Nat) (bitsize : Nat)
  | instruction
  | label (name : Str)
  | other
  deriving DecidableEq, Repr

/-- Output of a structure instantiation. -/
inductive SEv where
  | datadefAtom (bitsize : Nat) (optext : Str) (align : Nat)
  | spaceAtom (space_exp : Expr) (size : Nat) (fill : Expr) (align : Nat)
  | dataAtom (bytes : List Nat) (align : Nat)
  | dataAtomConst (size : Nat) (val : Int) (align : Nat)
  | cloneAtom (a : SAtom)
  | sdiag (n : Nat)
  deriving DecidableEq, Repr

/-- Modelled from the spec: `parse_string` from the assembler core reads a
quoted string literal and yields its bytes (escape sequences are a core
concern and are not modelled; no claim depends on them). -/
def parse_string (s : Str) : List Nat :=
  match s with
  | q :: r => (r.takeWhile (fun c => decide (c ≠ q))).map Char.toNat
  | [] => []

/-- Which atoms are initialisable fields (`p->type==DATA || SPACE || DATADEF`). -/
def isField : SAtom → Bool
  | SAtom.data _ _ => true
  | SAtom.space _ _ => true
  | SAtom.datadef _ _ => true
  | _ => false

/-- Re-initialisation of one field from a non-empty operand segment
(syntax.c lines 1406-1466).  `parse_operand` is the CPU collaborator and is
modelled as accepting every operand text (operand validity is
target-specific); for a DATA atom an oversized string literal is truncated
to the field size after the cut-last-chars diagnostic (syntax_error(21)),
and an empty dblock (`db->data == NULL`) skips operand parsing entirely. -/
def reinitField (p : SAtom) (seg : Str) : List SEv :=
  match p with
  | SAtom.datadef align bitsize => [SEv.datadefAtom bitsize seg align]
  | SAtom.space align sb =>
    [SEv.spaceAtom sb.space_exp sb.size (parse_expr_tmplab seg).1 align]
  | SAtom.data align db =>
    if db.size = 0 then [SEv.dataAtom [] align]
    else if seg.headD '\x00' = '\"' ∨ seg.headD '\x00' = '\'' then
      let strb := parse_string seg
      if strb.length = 0 then [SEv.dataAtom (List.replicate db.size 0) align]
      else
        (if strb.length > db.size then [SEv.sdiag 21] else []) ++
        [SEv.dataAtom (strb.take db.size ++ List.replicate (db.size - strb.length) 0) align]
    else [SEv.dataAtomConst db.size (parse_constexpr seg).1 align]
  | _ => []

/-- One operand segment, consumed exactly as the walk in `execute_struct`
does: skip blanks, scan one operand, then skip blanks and one ','. -/
def nextSeg (s : Str) : Str × Str :=
  let s1 := skip s
  let s2 := skip_operand s1
  let seg := s1.take (s1.length - s2.length)
  let s3 := skip s2
  (seg, match s3 with
        | ',' :: t => t
        | _ => s3)

/-- The field walk of `execute_struct` (syntax.c lines 1396-1480), operating
on the remaining operand text. -/
def structLoop : List SAtom → Str → List SEv
  | [], _ => []
  | p :: rest, s =>
    if isField p then
      (if (nextSeg s).1.length > 0 then reinitField p (nextSeg s).1
       else [SEv.cloneAtom p]) ++
      structLoop rest (nextSeg s).2
    else if p = SAtom.instruction then
      SEv.sdiag 20 :: structLoop rest s
    else
      structLoop rest s

/-- Known structure templates (the sections recorded by struct blocks). -/
abbrev StructTab := List (Str × List SAtom)

/-- Modelled from the spec: `find_structure` from the assembler core looks a
template up by name (template dictionary). -/
def find_structure (tab : StructTab) (nm : Str) : Option (List SAtom) :=
  match tab.find? (fun e => decide (e.1 = nm)) with
  | some e => some e.2
  | none => none

/-- `execute_struct` from syntax.c: `none` models returning 0 (no match). -/
def execute_struct (tab : StructTab) (nm : Str) (s : Str) : Option (List SEv) :=
  match find_structure tab nm with
  | none => none
  | some atoms => some (structLoop atoms s)

/-- Number of initialisable fields of a template. -/
def nFields (atoms : List SAtom) : Nat := atoms.countP isField

/-- Spec-side segmentation: split the operand text into `n` top-level
comma-separated segments, one per field in order (spec §4.5). -/
def splitSegs : Nat → Str → List Str
  | 0, _ => []
  | n + 1, s => (nextSeg s).1 :: splitSegs n (nextSeg s).2

/-- Spec-side instantiation, following §4.5's words: walk the template's
fields against the pre-split segment list, one segment per field by
position; a non-empty segment re-initialises the field, an empty one emits
the stored default; an instruction atom raises the diagnostic and the walk
continues; other atoms are ignored and consume no segment. -/
def instantiateSpec : List SAtom → List Str → List SEv
  | [], _ => []
  | p :: rest, segs =>
    if isField p then
      (if (segs.headD []).length > 0 then reinitField p (segs.headD [])
       else [SEv.cloneAtom p]) ++
      instantiateSpec rest segs.tail
    else if p = SAtom.instruction then
      SEv.sdiag 20 :: instantiateSpec rest segs
    else
      instantiateSpec rest segs

/-! ## Macro argument escapes (syntax.c lines 1744-1870) -/

/-- Modelled from the spec: the core's bound on positional macro parameter
slots (`maxmacparams`); its exact value is immaterial to the claims, which
assume only that a macro's parameter count stays within it. -/
def maxmacparams : Nat := 64

/-- `MAX_QUALIFIERS` of the M68K backend (one size qualifier). -/
def MAX_QUALIFIERS : Nat := 1

/-- The fields of the core's `source` structure that the escape expander
reads: invocation id, positional parameter texts and lengths, qualifier
texts and lengths, and the named-parameter declaration list. -/
structure MacSource where
  id : Nat
  num_params : Nat
  param : Nat → Str
  param_len : Nat → Nat
  num_quals : Nat
  qual : Nat → Str
  qual_len : Nat → Nat
  argnames : List Str

/-- `esc_sequences` is enabled by `init_syntax`. -/
def esc_sequences : Bool := true

/-- `count_passed_macargs` from syntax.c. -/
def count_passed_macargs (src : MacSource) : Nat :=
  ((List.range maxmacparams).filter (fun i => decide (src.param_len i > 0))).length

/-- Modelled from the spec: `find_macarg_name` from the assembler core maps
a declared named parameter to its positional index. -/
def find_macarg_name (src : MacSource) (nm : Str) : Option Nat :=
  src.argnames.findIdx? (fun a => decide (a = nm))

/-- `macro_arg_defined` from syntax.c: the written character and the C
return value.  `ty = true` is the named-argument path. -/
def macro_arg_defined (src : MacSource) (arg : Str) (ty : Bool) : Int × Str :=
  if ty then
    match find_macarg_name src arg with
    | some n =>
      (1, [if n < src.num_params ∧ n < maxmacparams ∧ src.param_len n > 0
           then '1' else '0'])
    | none => (0, [])
  else
    let n := (arg.headD '0').toNat - 48
    if n = 0 then
      (1, [if src.qual_len 0 > 0 then '1' else '0'])
    else
      let n := n - 1
      (1, [if n < src.num_params ∧ n < maxmacparams ∧ src.param_len n > 0
           then '1' else '0'])

/-- Modelled from the spec: `copy_macro_param` from the assembler core
copies the text of positional parameter `n` into the bounded buffer,
returning the number of characters copied (0 when the parameter does not
exist) and copying at most `dlen` characters. -/
def copy_macro_param (src : MacSource) (n : Nat) (dlen : Nat) : Int × Str :=
  if n < src.num_params ∧ n < maxmacparams then
    let w := ((src.param n).take (src.param_len n)).take dlen
    (Int.ofNat w.length, w)
  else (0, [])

/-- Modelled from the spec: `copy_macro_qual`, same contract for qualifier
texts. -/
def copy_macro_qual (src : MacSource) (n : Nat) (dlen : Nat) : Int × Str :=
  if n < src.num_quals ∧ n < MAX_QUALIFIERS then
    let w := ((src.qual n).take (src.qual_len n)).take dlen
    (Int.ofNat w.length, w)
  else (0, [])

/-- `sprintf(d, "_%06lu", src->id)`. -/
def sprintf_id (id : Nat) : Str :=
  let ds := decDigits id
  '_' :: (List.replicate (6 - ds.length) '0' ++ ds)

/-- The body of `expand_macro`'s escape dispatch (syntax.c lines 1801-1861),
`s0` pointing just past the leading backslash.  Result: the C `nc` value,
the characters written to the output buffer, and the final local scan
position `s`. -/
def expand_inner (src : MacSource) (s0 : Str) (dlen : Nat) : Int × Str × Str :=
  if s0.headD '\x00' = '\\' then
    if dlen ≥ 1 then
      if esc_sequences then
        if dlen ≥ 2 then (2, ['\\', '\\'], s0.tail) else (-1, ['\\'], s0.tail)
      else (1, ['\\'], s0.tail)
    else (-1, [], s0)
  else if s0.headD '\x00' = '@' then
    if dlen > 7 then
      let w := sprintf_id src.id
      (Int.ofNat w.length, w, s0.tail)
    else (-1, [], s0)
  else if s0.headD '\x00' = '#' then
    if dlen > 3 then
      let w := decDigits (count_passed_macargs src)
      (Int.ofNat w.length, w, s0.tail)
    else (-1, [], s0)
  else if s0.headD '\x00' = '?' ∧ dlen ≥ 1 then
    let s1 := s0.tail
    if cIsDigit (s1.headD '\x00') ∧ dlen > 3 then
      let r := macro_arg_defined src [s1.headD '0'] false
      (r.1, r.2, s1.tail)
    else
      match skip_identifier s1 with
      | some e =>
        let r := macro_arg_defined src (s1.take (s1.length - e.length)) true
        (r.1, r.2, e)
      | none => (-1, [], s0)
  else if cIsDigit (s0.headD '\x00') then
    if s0.headD '0' = '0' then
      let r := copy_macro_qual src 0 dlen
      (r.1, r.2, s0.tail)
    else
      let r := copy_macro_param src ((s0.headD '0').toNat - 49) dlen
      (r.1, r.2, s0.tail)
  else
    match skip_identifier s0 with
    | some e =>
      match find_macarg_name src (s0.take (s0.length - e.length)) with
      | some n =>
        let r := copy_macro_param src n dlen
        (r.1, r.2, e)
      | none => (0, [], s0)
    | none => (0, [], s0)

/-- `expand_macro` from syntax.c (lines 1791-1870).  Returns the C return
value `nc` (`-1`: out of space), the characters written into the output
buffer `d`, and the final value of `*line` (unchanged unless the final
`nc` is nonnegative). -/
def expand_macro (src : MacSource) (line : Str) (dlen : Nat) : Int × Str × Str :=
  match line with
  | '\\' :: s0 =>
    let r := expand_inner src s0 dlen
    if r.1 ≥ (dlen : Int) then (-1, r.2.1, line)
    else if r.1 ≥ 0 then r
    else (-1, r.2.1, line)
  | _ => (0, [], line)

/-! ## Observable events of the parse driver

Calls into external collaborators (atom sink, diagnostics, instruction
construction, macro/repeat engine of the core) are recorded as events. -/

inductive Event where
  | evalGuard
  | diag (n : Nat)
  | gdiag (n : Nat)
  | cdiag
  | labelAtom (name : Str)
  | equate (name : Str) (e : Expr)
  | setAbs (name : Str) (e : Expr)
  | defMacro (name : Str)
  | defStruct (name : Str)
  | execMacro (name : Str)
  | structEv (e : SEv)
  | instrAtom (mnem : Str) (ops : List Str)
  | newRepeat (cnt : Int)
  | newList (kind : Nat) (var : Str) (args : Str)
  | dispatched (name : Str)
  | condCheck (openBlocks : Bool)
  deriving DecidableEq, Repr

/-- `eol` from syntax.c (lines 93-104). -/
def eol (allow_spaces : Bool) (s : Str) : List Event :=
  if allow_spaces then
    if ISEOL (skip s) then [] else [Event.diag 6]
  else
    if !ISEOL s ∧ !cIsSpace (s.headD '\x00') then [Event.diag 6] else []

/-! ## Symbols and linkage binding (syntax.c lines 1103-1154) -/

/-- Modelled from the spec: the binding flag bits of the core's symbol
header (spec §6 lists binding flags export/weak/local/xref/xdef).  EXPORT
is bit 0 as in the vasm core; the remaining bits are pairwise distinct and
distinct from it, which is all the behaviour below depends on. -/
def EXPORT : Nat := 1

def WEAK : Nat := 8

def LOCAL : Nat := 16

def XREF : Nat := 256

def XDEF : Nat := 512

inductive SymKind where
  | imported
  | labsym
  | equated
  | absval
  deriving DecidableEq, Repr

structure Sym where
  name : Str
  flags : Nat
  kind : SymKind
  deriving DecidableEq, Repr

abbrev SymTab := List Sym

def find_symbol (tab : SymTab) (nm : Str) : Option Sym :=
  tab.find? (fun s => decide (s.name = nm))

/-- Modelled from the spec: `new_import` from the assembler core returns
the existing symbol or creates a fresh import-typed one with empty flags. -/
def new_import (tab : SymTab) (nm : Str) : SymTab × Sym :=
  match find_symbol tab nm with
  | some s => (tab, s)
  | none =>
    let s : Sym := ⟨nm, 0, SymKind.imported⟩
    (s :: tab, s)

def upsert (tab : SymTab) (s : Sym) : SymTab :=
  match tab with
  | [] => [s]
  | t :: r => if t.name = s.name then s :: r else t :: upsert r s

/-- The C truth value of `a != b`. -/
def cneq (a b : Nat) : Nat := if a = b then 0 else 1

/-- The guard of `do_bind` exactly as C precedence parses lines 1114-1115:
`!=` binds tighter than `&`, so each side is `flags & (comparison result)`. -/
def do_bind_cond (flags bind : Nat) : Bool :=
  decide ((flags &&& cneq (EXPORT ||| WEAK ||| LOCAL) 0) ≠ 0 ∧
          (flags &&& cneq (EXPORT ||| WEAK ||| LOCAL) bind) ≠ 0)

/-- The duplicate-binding test the source's comment ("binding already set")
and the specification describe: the symbol already carries one of the
EXPORT/WEAK/LOCAL binding flags and the carried set differs from the
requested one. -/
def bind_conflict (flags bind : Nat) : Bool :=
  decide ((flags &&& (EXPORT ||| WEAK ||| LOCAL)) ≠ 0 ∧
          (flags &&& (EXPORT ||| WEAK ||| LOCAL)) ≠ bind)

/-- The per-symbol body of `do_bind`'s loop (syntax.c lines 1113-1122). -/
def do_bind_sym (sym : Sym) (bind : Nat) : Sym × List Event :=
  if do_bind_cond sym.flags bind then (sym, [Event.gdiag 62])
  else
    ({ sym with flags := sym.flags ||| bind },
     if bind &&& XREF ≠ 0 ∧ sym.kind ≠ SymKind.imported then [Event.gdiag 85]
     else [])

/-- `do_bind` from syntax.c (lines 1103-1129): walk the comma-separated
identifier list.  Fuel makes the C `while(1)` structural; each continuing
iteration consumes at least the separating comma. -/
def do_bind_loop : Nat → Str → Nat → Bool → SymTab → SymTab × List Event
  | 0, _, _, _, tab => (tab, [])
  | fuel + 1, s, bind, allow_sp, tab =>
    match parse_identifier s with
    | none => (tab, [Event.diag 10])
    | some (nm, s1) =>
      let (tab1, sym) := new_import tab nm
      let (sym', evs) := do_bind_sym sym bind
      let tab2 := upsert tab1 sym'
      let s2 := skip s1
      match s2 with
      | ',' :: t =>
        let (tab3, evs') := do_bind_loop fuel (skip t) bind allow_sp tab2
        (tab3, evs ++ evs')
      | _ => (tab2, evs ++ eol allow_sp s2)

def do_bind (s : Str) (bind : Nat) (allow_sp : Bool) (tab : SymTab) :
    SymTab × List Event :=
  do_bind_loop (s.length + 1) s bind allow_sp tab

/-! ## Conditional-assembly engine

The stack machine lives in the assembler core (cond.c), not in this source
file; it is modelled from the spec (§3 ConditionalFrame, §4.1).  A frame is
`{branch_taken, else_seen}` plus a `done` flag recording that some branch of
the chain has already been taken — required so that an `elseif` chain takes
exactly the first true branch (§8).  Engine errors (underflow, `else` after
`else`) surface as the `cdiag` event. -/

structure CondFrame where
  branch_taken : Bool
  else_seen : Bool
  done : Bool
  deriving DecidableEq, Repr

abbrev CondStack := List CondFrame

/-- Modelled from the spec: `active()` — true iff every frame took its branch. -/
def cond_state (st : CondStack) : Bool := st.all (fun f => f.branch_taken)

/-- Modelled from the spec: `push(b)` — open a frame from an evaluated guard. -/
def cond_if (b : Bool) (st : CondStack) : CondStack := ⟨b, false, b⟩ :: st

/-- Modelled from the spec: push a frame for an `if` seen inside an inactive
region; it only tracks nesting and never activates. -/
def cond_skipif (st : CondStack) : CondStack := ⟨false, false, true⟩ :: st

/-- Modelled from the spec: `enter_else` — fails when the innermost frame
already saw an `else`; otherwise takes the branch iff none was taken yet. -/
def cond_else (st : CondStack) : CondStack × List Event :=
  match st with
  | [] => ([], [Event.cdiag])
  | f :: r =>
    if f.else_seen then (f :: r, [Event.cdiag])
    else (⟨!f.done, true, true⟩ :: r, [])

/-- Modelled from the spec: `enter_elseif(b)`. -/
def cond_elseif (b : Bool) (st : CondStack) : CondStack × List Event :=
  match st with
  | [] => ([], [Event.cdiag])
  | f :: r =>
    if f.else_seen then (f :: r, [Event.cdiag])
    else (⟨!f.done && b, false, f.done || b⟩ :: r, [])

/-- Modelled from the spec: deactivate the innermost frame for the rest of
its chain (the active-path handler of `else`/`elseif`). -/
def cond_skipelse (st : CondStack) : CondStack × List Event :=
  match st with
  | [] => ([], [Event.cdiag])
  | f :: r => ((⟨false, f.else_seen, true⟩ : CondFrame) :: r, [])

/-- Modelled from the spec: `pop()` — underflow is an error. -/
def cond_endif (st : CondStack) : CondStack × List Event :=
  match st with
  | [] => ([], [Event.cdiag])
  | _ :: r => (r, [])

/-- Modelled from the spec: the end-of-input consistency check — a
non-empty stack is the unterminated-conditional error.  The returned event
records that the check ran and whether blocks were open. -/
def cond_check (st : CondStack) : Event := Event.condCheck (decide (st ≠ []))

/-! ## Guard-expression evaluation (syntax.c lines 793-814, 870-901) -/

/-- `eval_ifexp` from syntax.c: parse the guard, constant-fold it, compare
against zero according to `c` (0: ==, 1: !=, 2: >, 3: >=, 4: <, 5: <=).  A
non-constant expression is the general_error(30) and yields false.  The
`evalGuard` event records that the guard expression was evaluated. -/
def eval_ifexp (s : Str) (c : Nat) : Bool × Str × List Event :=
  let p := parse_expr_tmplab s
  match eval_expr p.1 with
  | some v =>
    let b : Bool :=
      if c = 0 then decide (v = 0)
      else if c = 1 then decide (v ≠ 0)
      else if c = 2 then decide (v > 0)
      else if c = 3 then decide (v ≥ 0)
      else if c = 4 then decide (v < 0)
      else if c = 5 then decide (v ≤ 0)
      else false
    (b, p.2, [Event.evalGuard])
  | none => (false, p.2, [Event.evalGuard, Event.gdiag 30])

/-- Case-insensitive `strnicmp(s, t, t.length) == 0`. -/
def strnicmp0 (s t : Str) : Bool :=
  decide ((s.take t.length).map cLower = t.map cLower)

/-- `handle_iif` from syntax.c (lines 870-901): on an `iif` prefix evaluate
the expression; continue on the same line after it when true, else discard
the rest of the line. -/
def handle_iif (line_ptr : Str) : Str × List Event :=
  if strnicmp0 line_ptr ("iif").data ∧ cIsSpace ((line_ptr.drop 3).headD '\x00') then
    let p1 := skip (line_ptr.drop 3)
    let (condition, rest, evs) := eval_ifexp p1 1
    if condition then (skip (p1.drop (p1.length - rest.length)), evs)
    else ([], evs)
  else (line_ptr, [])

/-! ## Reserve-offset directives (syntax.c lines 335-460)

The `__RS` offset symbol is an absolute symbol of the core; its current
expression is carried as explicit state.  `simplify_expr` and `copy_tree`
from the core are semantics-preserving / pure on the symbolic expression
values and are modelled as the identity. -/

def rs_name : Str := ("__RS").data

/-- C bitwise complement on a (signed) target address. -/
def cNot (a : Int) : Int := -(a + 1)

/-- Modelled from the spec: `DATA_ALIGN` of the CPU backend gives the
natural alignment in bytes of a data size in bits. -/
def DATA_ALIGN (bits : Nat) : Nat := bits / 8

/-- `setoffset_align` from syntax.c (lines 347-359). -/
def setoffset_align (rs : Expr) (dir : Int) (align : Nat) : Expr :=
  let a : Int := Int.ofNat (align - 1)
  Expr.band
    (if dir > 0 then Expr.add rs (Expr.num a) else Expr.sub rs (Expr.num a))
    (Expr.num (cNot a))

/-- `new_setoffset_size` from syntax.c (lines 368-411): build the new
offset expression and the optional equate of `equname` to it.  Returns the
new `__RS` expression, the equate event (if any), and the rest of the
line. -/
def new_setoffset_size (equname : Option Str) (rs : Expr) (align_data : Bool)
    (s : Str) (dir : Int) (size : Int) : Expr × List Event × Str :=
  if !ISEOL s then
    let p := parse_expr_tmplab s
    let inc := Expr.mul p.1 (Expr.num size)
    let old :=
      if align_data ∧ size > 1 then
        let dalign : Int := Int.ofNat (DATA_ALIGN (size.toNat * 8)) - 1
        Expr.band
          (if dir > 0 then Expr.add rs (Expr.num dalign)
           else Expr.sub rs (Expr.num dalign))
          (Expr.num (cNot dalign))
      else rs
    let new := if dir > 0 then Expr.add old inc else Expr.sub old inc
    let evs := match equname with
      | some nm => [Event.equate nm (if dir > 0 then old else new)]
      | none => []
    (new, evs, p.2)
  else
    let evs := match equname with
      | some nm => [Event.equate nm rs]
      | none => []
    (rs, evs, s)

/-- `new_setoffset` from syntax.c (lines 415-445): determine the element
size from the directive's '.'-qualifier (default 'w'), diagnosing an
invalid extension (syntax_error(1)) and then continuing with size 1.  `s`
points at the two-letter directive name itself. -/
def new_setoffset (equname : Option Str) (rs : Expr) (align_data : Bool)
    (s : Str) (dir : Int) : Expr × List Event × Str :=
  if (s.drop 2).headD '\x00' = '.' then
    let e := cLower ((s.drop 3).headD '\x00')
    let s' := skip (s.drop 4)
    if e = 'b' then new_setoffset_size equname rs align_data s' dir 1
    else if e = 'w' then new_setoffset_size equname rs align_data s' dir 2
    else if e = 'l' then new_setoffset_size equname rs align_data s' dir 4
    else
      let r := new_setoffset_size equname rs align_data s' dir 1
      (r.1, Event.diag 1 :: r.2.1, r.2.2)
  else
    new_setoffset_size equname rs align_data (skip (s.drop 2)) dir 2

/-- `offs_directive` from syntax.c (lines 1367-1375). -/
def offs_directive (s : Str) (name : Str) : Bool :=
  let d := s.drop name.length
  strnicmp0 s name ∧
  (cIsSpace (d.headD '\x00') ∨ ISEOL d ∨
   (d.headD '\x00' = '.' ∧
    (cIsSpace ((d.drop 2).headD '\x00') ∨ ISEOL (d.drop 2))))

/-! ## Directive table and dispatcher (syntax.c lines 1222-1364)

Each entry's handler function pointer is represented by a tag.  Handlers
whose entire effect concerns external collaborators (sections, file
inclusion, data emission, listing control, block capture) and on which no
claim depends are condensed into the `dispatched` event under the
`dGeneric` tag; control flow of the dispatcher itself is from the source. -/

inductive DirTag where
  | dRsset
  | dRsreset
  | dRseven
  | dRsN (size : Int)
  | dIfexp (c : Nat)
  | dIfd (b : Bool)
  | dIfmac (b : Bool)
  | dIfb (b : Bool)
  | dIfc (b : Bool)
  | dElse
  | dElseif
  | dEndif
  | dRept
  | dIrp (kind : Nat)
  | dBind (mask : Nat)
  | dInform
  | dFail
  | dEnd
  | dGeneric
  deriving DecidableEq, Repr

/-- The `directives[]` table, in source order, as compiled for
VASM_CPU_M68K. -/
def dirTable : List (Str × DirTag) := [
  (("rsset").data, DirTag.dRsset),
  (("rsreset").data, DirTag.dRsreset),
  (("rseven").data, DirTag.dRseven),
  (("rs").data, DirTag.dRsN 2),
  (("rs.b").data, DirTag.dRsN 1),
  (("rs.w").data, DirTag.dRsN 2),
  (("rs.l").data, DirTag.dRsN 4),
  (("dc.b").data, DirTag.dGeneric),
  (("dc.w").data, DirTag.dGeneric),
  (("dc.l").data, DirTag.dGeneric),
  (("dcb").data, DirTag.dGeneric),
  (("dcb.b").data, DirTag.dGeneric),
  (("dcb.w").data, DirTag.dGeneric),
  (("dcb.l").data, DirTag.dGeneric),
  (("ds").data, DirTag.dGeneric),
  (("ds.b").data, DirTag.dGeneric),
  (("ds.w").data, DirTag.dGeneric),
  (("ds.l").data, DirTag.dGeneric),
  (("org").data, DirTag.dGeneric),
  (("obj").data, DirTag.dGeneric),
  (("objend").data, DirTag.dGeneric),
  (("cnop").data, DirTag.dGeneric),
  (("even").data, DirTag.dGeneric),
  (("align").data, DirTag.dGeneric),
  (("incdir").data, DirTag.dGeneric),
  (("include").data, DirTag.dGeneric),
  (("incbin").data, DirTag.dGeneric),
  (("if").data, DirTag.dIfexp 1),
  (("else").data, DirTag.dElse),
  (("elseif").data, DirTag.dElseif),
  (("endif").data, DirTag.dEndif),
  (("ifdef").data, DirTag.dIfd true),
  (("ifnodef").data, DirTag.dIfd false),
  (("ifmac").data, DirTag.dIfmac true),
  (("ifnomac").data, DirTag.dIfmac false),
  (("ifstr").data, DirTag.dIfb false),
  (("ifnostr").data, DirTag.dIfb true),
  (("ifstreq").data, DirTag.dIfc true),
  (("ifstrne").data, DirTag.dIfc false),
  (("ifeq").data, DirTag.dIfexp 0),
  (("ifne").data, DirTag.dIfexp 1),
  (("ifgt").data, DirTag.dIfexp 2),
  (("ifge").data, DirTag.dIfexp 3),
  (("iflt").data, DirTag.dIfexp 4),
  (("ifle").data, DirTag.dIfexp 5),
  (("comment").data, DirTag.dGeneric),
  (("comend").data, DirTag.dGeneric),
  (("struct").data, DirTag.dGeneric),
  (("strend").data, DirTag.dGeneric),
  (("module").data, DirTag.dGeneric),
  (("modend").data, DirTag.dGeneric),
  (("rept").data, DirTag.dRept),
  (("irp").data, DirTag.dIrp 1),
  (("irpc").data, DirTag.dIrp 2),
  (("endr").data, DirTag.dGeneric),
  (("endm").data, DirTag.dGeneric),
  (("mexit").data, DirTag.dGeneric),
  (("purge").data, DirTag.dGeneric),
  (("section").data, DirTag.dGeneric),
  (("pushs").data, DirTag.dGeneric),
  (("pops").data, DirTag.dGeneric),
  (("local").data, DirTag.dBind LOCAL),
  (("weak").data, DirTag.dBind WEAK),
  (("global").data, DirTag.dBind EXPORT),
  (("xref").data, DirTag.dBind (EXPORT ||| XREF)),
  (("xdef").data, DirTag.dBind (EXPORT ||| XDEF)),
  (("inform").data, DirTag.dInform),
  (("list").data, DirTag.dGeneric),
  (("nolist").data, DirTag.dGeneric),
  (("fail").data, DirTag.dFail),
  (("end").data, DirTag.dEnd)]

/-- Case-insensitive name equality (`find_namelen_nc`). -/
def eqNC (a b : Str) : Bool := decide (a.map cLower = b.map cLower)

def dirFind : List (Str × DirTag) → Nat → Str → Option (Nat × Str × DirTag)
  | [], _, _ => none
  | (nm, tg) :: rest, i, key =>
    if eqNC key nm then some (i, nm, tg) else dirFind rest (i + 1) key

/-- `check_directive` from syntax.c (lines 1336-1351): scan an identifier
with optional '.' parts and look it up case-insensitively; on success the
scan position moves past the name (`*line = s`). -/
def check_directive (line : Str) : Option ((Nat × Str × DirTag) × Str) :=
  let s := skip line
  match s with
  | [] => none
  | c :: r =>
    if ISIDSTART c then
      let nm := c :: r.takeWhile (fun x => ISIDCHAR x || x = '.')
      match dirFind dirTable 0 nm with
      | some e => some (e, r.dropWhile (fun x => ISIDCHAR x || x = '.'))
      | none => none
    else none

/-! ## Parse driver state -/

structure PState where
  parse_end : Bool
  cond : CondStack
  anon : Nat
  symtab : SymTab
  macros : List Str
  structs : StructTab
  rs : Expr
  align_data : Bool
  allow_spaces : Bool
  deriving DecidableEq, Repr

/-- Record/overwrite a symbol definition (`new_equate` / `new_abs` /
`new_labsym` of the core), keeping previously set flags. -/
def def_symbol (tab : SymTab) (nm : Str) (k : SymKind) : SymTab :=
  match find_symbol tab nm with
  | some s => upsert tab { s with kind := k }
  | none => upsert tab ⟨nm, 0, k⟩

/-- The directive handlers, dispatched by `handle_directive` with the
operand text already blank-skipped (`directives[idx].func(skip(line))`). -/
def runDir (nm : Str) (tg : DirTag) (s : Str) (st : PState) :
    PState × List Event :=
  match tg with
  | DirTag.dRsset =>
    let (e, _) := parse_expr_tmplab s
    ({ st with rs := e }, [])
  | DirTag.dRsreset => ({ st with rs := Expr.num 0 }, [])
  | DirTag.dRseven => ({ st with rs := setoffset_align st.rs 1 2 }, [])
  | DirTag.dRsN size =>
    let (rs', evs, _) := new_setoffset_size none st.rs st.align_data s 1 size
    ({ st with rs := rs' }, evs)
  | DirTag.dIfexp c =>
    let (b, _, evs) := eval_ifexp s c
    ({ st with cond := cond_if b st.cond }, evs)
  | DirTag.dIfd b =>
    match parse_symbol local_char st.anon s with
    | none => (st, [Event.diag 10])
    | some (snm, _) =>
      let result : Bool :=
        match find_symbol st.symtab snm with
        | some sym => decide (sym.kind ≠ SymKind.imported)
        | none => false
      ({ st with cond := cond_if (result = b) st.cond }, [])
  | DirTag.dIfmac b =>
    match skip_identifier s with
    | some e =>
      let mnm := s.take (s.length - e.length)
      let result := st.macros.any (fun m => eqNC m mnm)
      ({ st with cond := cond_if (result = b) st.cond }, [])
    | none => (st, [Event.diag 10])
  | DirTag.dIfb b =>
    ({ st with cond := cond_if (ISEOL (skip s) = b) st.cond }, [])
  | DirTag.dIfc b =>
    (match parse_name s with
     | some (str1, r1) =>
       match r1 with
       | ',' :: t =>
         (match parse_name (skip t) with
          | some (str2, _) =>
            ({ st with cond := cond_if (decide (str1 = str2) = b) st.cond }, [])
          | none => (st, [Event.diag 5]))
       | _ => (st, [Event.diag 5])
     | none => (st, [Event.diag 5]))
  | DirTag.dElse =>
    let (c', evs) := cond_skipelse st.cond
    ({ st with cond := c' }, evs)
  | DirTag.dElseif =>
    let (c', evs) := cond_skipelse st.cond
    ({ st with cond := c' }, evs)
  | DirTag.dEndif =>
    let (c', evs) := cond_endif st.cond
    ({ st with cond := c' }, evs)
  | DirTag.dRept =>
    let (cnt, _) := parse_constexpr s
    (st, [Event.newRepeat (if cnt < 0 then 0 else cnt)])
  | DirTag.dIrp kind =>
    (match parse_identifier s with
     | none => (st, [Event.diag 10])
     | some (vnm, r) =>
       let r1 := skip r
       let r2 := match r1 with
                 | ',' :: t => skip t
                 | _ => r1
       (st, [Event.newList kind vnm r2]))
  | DirTag.dBind mask =>
    let (tab', evs) := do_bind s mask st.allow_spaces st.symtab
    ({ st with symtab := tab' }, evs)
  | DirTag.dInform =>
    let (sev, r) := parse_constexpr s
    let r1 := skip r
    (match r1 with
     | ',' :: t =>
       let t1 := skip t
       (match parse_name t1 with
        | some (_, r2) =>
          let (st', evs) :=
            if sev = 0 then (st, [Event.diag 16])
            else if sev = 1 then (st, [Event.diag 17])
            else if sev = 2 then (st, [Event.diag 18])
            else if sev = 3 then ({ st with parse_end := true }, [Event.diag 19])
            else (st, [Event.diag 15])
          (st', evs ++ eol st.allow_spaces r2)
        | none => (st, eol st.allow_spaces t1))
     | _ => (st, [Event.diag 5]))
  | DirTag.dFail => ({ st with parse_end := true }, [Event.diag 11])
  | DirTag.dEnd => ({ st with parse_end := true }, [])
  | DirTag.dGeneric => (st, [Event.dispatched nm])

/-- `handle_directive` from syntax.c (lines 1355-1364). -/
def handle_directive (s : Str) (st : PState) : Option (PState × List Event) :=
  match check_directive s with
  | some ((_, nm, tg), rest) => some (runDir nm tg (skip rest) st)
  | none => none

/-- `!strncmp(name, "if", 2)`. -/
def hasIfPfx : Str → Bool
  | 'i' :: 'f' :: _ => true
  | _ => false

/-- The inactive-conditional branch of `parse` (syntax.c lines 1546-1565):
skip a leading label, look for a directive, and react only to the
`if*`/`else`/`endif`/`elseif` families; the `elseif` guard is evaluated
and handed to `cond_elseif`. -/
def skipBranch (st : PState) (line : Str) : PState × List Event :=
  let r := parse_label_or_pc local_char line st.anon
  let st1 := { st with anon := r.2.2 }
  match check_directive r.2.1 with
  | none => (st1, [])
  | some ((_, nm, tg), rest) =>
    if hasIfPfx nm then ({ st1 with cond := cond_skipif st1.cond }, [])
    else match tg with
      | DirTag.dElse =>
        let p := cond_else st1.cond
        ({ st1 with cond := p.1 }, p.2)
      | DirTag.dEndif =>
        let p := cond_endif st1.cond
        ({ st1 with cond := p.1 }, p.2)
      | DirTag.dElseif =>
        let q := eval_ifexp (skip rest) 1
        let p := cond_elseif q.1 st1.cond
        ({ st1 with cond := p.1 }, q.2.2 ++ p.2)
      | _ => (st1, [])

/-- Modelled from the spec: the M68K `parse_instruction` CPU hook splits
"mnemonic.qualifier"; only the mnemonic text and the qualifier list are
relevant to this driver. -/
def parse_instruction (s : Str) : Str × Str × List Str :=
  let mnem := s.takeWhile ISIDCHAR
  let r := s.dropWhile ISIDCHAR
  match r with
  | '.' :: t => (mnem, t.dropWhile ISIDCHAR, [t.takeWhile ISIDCHAR])
  | _ => (mnem, r, [])

/-- `MAX_OPERANDS` of the M68K backend. -/
def MAX_OPERANDS : Nat := 6

/-- `oplen` (syntax.c lines 1378-1383): operand length with trailing
blanks removed. -/
def rtrimLen (seg : Str) : Nat := seg.length - (seg.reverse.takeWhile cIsSpace).length

/-- The operand tokenization loop of `parse` (syntax.c lines 1678-1702),
with fuel (each continuing iteration consumes at least the comma). -/
def tokOps : Nat → Str → Bool → Nat → List Str × List Event × Str
  | 0, s, _, _ => ([], [], s)
  | fuel + 1, s, allow_sp, cnt =>
    if ISEOL s ∨ MAX_OPERANDS ≤ cnt then ([], [], s)
    else
      let s1 := skip_operand s
      let seg := s.take (s.length - s1.length)
      let l := rtrimLen seg
      let (ops0, evs0, cnt') :=
        if l = 0 then (([] : List Str), [Event.diag 5], cnt)
        else ([seg.take l], ([] : List Event), cnt + 1)
      if allow_sp then
        let s2 := skip s1
        match s2 with
        | ',' :: t =>
          let (ops, evs, sf) := tokOps fuel (skip t) allow_sp cnt'
          (ops0 ++ ops, evs0 ++ evs, sf)
        | _ => (ops0, evs0, s2)
      else
        match s1 with
        | ',' :: t =>
          let (ops, evs, sf) := tokOps fuel t allow_sp cnt'
          (ops0 ++ ops, evs0 ++ evs, sf)
        | _ => (ops0, evs0, s1)

/-- The tail of the per-line driver after label handling (syntax.c lines
1636-1724): comment check, inline-if, directive dispatch, then
macro/template invocation or instruction tokenization.
`parse_cpu_special` is the CPU hook and is the identity for the claims'
configuration; `new_inst` (CPU collaborator) is modelled as always
producing an instruction, recorded as the `instrAtom` event. -/
def parseRest (st : PState) (s0 : Str) : PState × List Event :=
  let s := skip s0
  if s.headD '\x00' = commentchar then (st, [])
  else
    let (s, evs1) := handle_iif s
    if ISEOL s then (st, evs1)
    else match handle_directive s st with
    | some (st', evs2) => (st', evs1 ++ evs2)
    | none =>
      let s := skip s
      if ISEOL s then (st, evs1)
      else if !ISIDSTART (s.headD '\x00') then (st, evs1 ++ [Event.diag 10])
      else
        let (inst, s1, _) := parse_instruction s
        let evs2 := if !cIsSpace (s1.headD '\x00') ∧ s1 ≠ [] then [Event.diag 2] else []
        let s2 := skip s1
        if st.macros.any (fun m => eqNC m inst) then
          (st, evs1 ++ evs2 ++ [Event.execMacro inst])
        else match execute_struct st.structs inst s2 with
        | some sevs => (st, evs1 ++ evs2 ++ sevs.map Event.structEv)
        | none =>
          let (ops, evs3, sf) := tokOps (s2.length + 1) s2 st.allow_spaces 0
          let evs4 := eol st.allow_spaces sf
          (st, evs1 ++ evs2 ++ evs3 ++ evs4 ++ [Event.instrAtom inst ops])

/-- The label branch of the per-line driver (syntax.c lines 1567-1634):
assignment spellings, the label-consuming `macro`/`struct` forms, the
label+`rs` offset form, or a plain label atom.  Macro and structure
definition blocks are captured by the core's line source; the definition
itself is recorded as an event (and the macro name dictionary updated). -/
def parseLabelPart (st : PState) (labname : Str) (s0 : Str) (line : Str) :
    PState × List Event :=
  let s := skip s0
  let (s, evsI) := handle_iif s
  if strnicmp0 s ("equ").data ∧ cIsSpace ((s.drop 3).headD '\x00') then
    let (e, s') := parse_expr_tmplab (skip (s.drop 3))
    let st' := { st with symtab := def_symbol st.symtab labname SymKind.equated }
    let (st'', evs') := parseRest st' s'
    (st'', evsI ++ [Event.equate labname e] ++ evs')
  else if strnicmp0 s ("set").data ∧ cIsSpace ((s.drop 3).headD '\x00') then
    let (e, s') := parse_expr_tmplab (skip (s.drop 3))
    let st' := { st with symtab := def_symbol st.symtab labname SymKind.absval }
    let (st'', evs') := parseRest st' s'
    (st'', evsI ++ [Event.setAbs labname e] ++ evs')
  else if s.headD '\x00' = '=' then
    (if (s.drop 1).headD '\x00' = '=' then
      let (e, s') := parse_expr_tmplab (skip (s.drop 2))
      let st' := { st with symtab := def_symbol st.symtab labname SymKind.equated }
      let (st'', evs') := parseRest st' s'
      (st'', evsI ++ [Event.equate labname e] ++ evs')
    else
      let (e, s') := parse_expr_tmplab (skip (s.drop 1))
      let st' := { st with symtab := def_symbol st.symtab labname SymKind.absval }
      let (st'', evs') := parseRest st' s'
      (st'', evsI ++ [Event.setAbs labname e] ++ evs'))
  else if offs_directive s ("rs").data then
    let (rs', evs, s') := new_setoffset (some labname) st.rs st.align_data s 1
    let st' := { st with rs := rs', symtab := def_symbol st.symtab labname SymKind.equated }
    let (st'', evs') := parseRest st' s'
    (st'', evsI ++ evs ++ evs')
  else if strnicmp0 s ("macro").data ∧
      (cIsSpace ((s.drop 5).headD '\x00') ∨ (s.drop 5).isEmpty ∨
       (s.drop 5).headD '\x00' = commentchar) then
    match parse_identifier line with
    | some (mnm, _) =>
      ({ st with macros := mnm :: st.macros }, evsI ++ [Event.defMacro mnm])
    | none => (st, evsI)
  else if strnicmp0 s ("struct").data ∧
      (cIsSpace ((s.drop 6).headD '\x00') ∨ (s.drop 6).isEmpty ∨
       (s.drop 6).headD '\x00' = commentchar) then
    match parse_identifier line with
    | some (snm, _) => (st, evsI ++ [Event.defStruct snm])
    | none => (st, evsI)
  else
    let st' := { st with symtab := def_symbol st.symtab labname SymKind.labsym }
    let (st'', evs') := parseRest st' s
    (st'', evsI ++ [Event.labelAtom labname] ++ evs')

/-- One iteration of the `while (line = read_next_line())` loop of `parse`
(syntax.c lines 1541-1725). -/
def parseLine (st : PState) (line : Str) : PState × List Event :=
  if st.parse_end then (st, [])
  else if !cond_state st.cond then skipBranch st line
  else
    let r := parse_label_or_pc local_char line st.anon
    let st1 := { st with anon := r.2.2 }
    match r.1 with
    | some labname => parseLabelPart st1 labname r.2.1 line
    | none => parseRest st1 r.2.1

def parseSteps : PState → List Str → PState × List Event
  | st, [] => (st, [])
  | st, l :: ls =>
    let p := parseLine st l
    let q := parseSteps p.1 ls
    (q.1, p.2 ++ q.2)

/-- `parse` from syntax.c: process every line the line source returns, then
run `cond_check` (line 1727) unconditionally. -/
def parse (st : PState) (lines : List Str) : PState × List Event :=
  let p := parseSteps st lines
  (p.1, p.2 ++ [cond_check p.1.cond])

/-! ## Theorems -/

/-- A small driver state used by concrete witnesses. -/
def stW : PState := ⟨false, [], 0, [], [], [], Expr.num 0, false, false⟩

/-- C5: the counted repeat directive hands the repeat engine exactly
`max(n,0)` repetitions: 0 for every negative constant count, `n` itself for
every non-negative constant `n` (handle_rept, syntax.c lines 989-994). -/
theorem handle_rept_count_clamp (nm s : Str) (st : PState) (n : Int) (r : Str)
    (h : parse_constexpr s = (n, r)) :
    runDir nm DirTag.dRept s st = (st, [Event.newRepeat (max n 0)]) := by
  have hmax : (if n < 0 then 0 else n) = max n 0 := by
    rcases lt_or_le n 0 with h1 | h1
    · simp [h1, max_eq_right h1.le]
    · simp [not_lt.mpr h1, max_eq_left h1]
  simp only [runDir, h, hmax]

theorem handle_rept_count_clamp_witness :
    parse_constexpr (("-3").data) = (-3, []) ∧
    runDir [] DirTag.dRept (("-3").data) stW = (stW, [Event.newRepeat 0]) := by
  refine ⟨by decide, ?_⟩
  have h := handle_rept_count_clamp [] (("-3").data) stW (-3) [] (by decide)
  simpa using h

/-- C7 (code_bug): because `!=` binds tighter than `&`, the duplicate-binding
guard of `do_bind` (syntax.c lines 1114-1115) degenerates to testing bit 0
(EXPORT) of the symbol's flags.  At the concrete failing input — a symbol
already carrying the LOCAL binding, named in a `weak` directive — the code
ORs WEAK into the flags (24 = LOCAL|WEAK) and reports nothing, although the
intended duplicate-binding test (`bind_conflict`, the source's own comment
"binding already set") fires; conversely the compiled guard would fire on a
same-binding repeat of `global`. -/
theorem do_bind_precedence_divergence :
    do_bind (("S").data) WEAK false [⟨("S").data, LOCAL, SymKind.imported⟩]
      = ([⟨("S").data, LOCAL ||| WEAK, SymKind.imported⟩], []) ∧
    bind_conflict LOCAL WEAK = true ∧
    do_bind_cond LOCAL WEAK = false ∧
    bind_conflict EXPORT EXPORT = false ∧
    do_bind_cond EXPORT EXPORT = true := by
  decide

/-! Auxiliary bounds for the escape expander. -/

theorem macro_arg_defined_len (src : MacSource) (arg : Str) (ty : Bool) :
    ((macro_arg_defined src arg ty).2.length : Int) = (macro_arg_defined src arg ty).1 := by
  unfold macro_arg_defined
  cases ty
  · simp only [Bool.false_eq_true, if_false]
    split_ifs <;> simp
  · simp only [if_true]
    rcases h : find_macarg_name src arg with _ | n <;> simp

theorem copy_macro_param_spec (src : MacSource) (n dlen : Nat) :
    ((copy_macro_param src n dlen).2.length : Int) = (copy_macro_param src n dlen).1 ∧
    (copy_macro_param src n dlen).2.length ≤ dlen := by
  unfold copy_macro_param
  split_ifs <;> simp [List.length_take]

theorem copy_macro_qual_spec (src : MacSource) (n dlen : Nat) :
    ((copy_macro_qual src n dlen).2.length : Int) = (copy_macro_qual src n dlen).1 ∧
    (copy_macro_qual src n dlen).2.length ≤ dlen := by
  unfold copy_macro_qual
  split_ifs <;> simp [List.length_take]

theorem expand_inner_len (src : MacSource) (s0 : Str) (dlen : Nat) :
    0 ≤ (expand_inner src s0 dlen).1 →
    ((expand_inner src s0 dlen).2.1.length : Int) = (expand_inner src s0 dlen).1 := by
  simp only [expand_inner]
  split_ifs <;>
    first
    | (intro h; exact absurd h (of_decide_eq_false rfl))
    | (intro _; exact macro_arg_defined_len src _ false)
    | (intro _; exact macro_arg_defined_len src _ true)
    | (intro _; exact (copy_macro_qual_spec src 0 dlen).1)
    | (intro _; exact (copy_macro_param_spec src _ dlen).1)
    | (intro _; rfl)
    | (split <;>
        first
        | (intro h; exact absurd h (of_decide_eq_false rfl))
        | (intro _; exact macro_arg_defined_len src _ true)
        | (intro _; rfl)
        | (split <;>
            first
            | (intro h; exact absurd h (of_decide_eq_false rfl))
            | (intro _; exact (copy_macro_param_spec src _ dlen).1)
            | (intro _; rfl)))

/-- C4 (amended): `expand_macro` returns -1 and leaves `*line` unchanged
whenever the expansion fails; the line pointer moves only when the expansion
succeeded (`nc ≥ 0`); and on success the characters written fit the buffer
(`length = nc < dlen`, except the trivial non-escape case which writes
nothing).  The original claim's stronger "never writes more than dlen" is
refuted by `expand_macro_writes_past_dlen_cex`: the `\@`/`\#` forms sprintf
the full replacement before the length check. -/
theorem expand_macro_bounds (src : MacSource) (line : Str) (dlen : Nat) :
    (( expand_macro src line dlen).1 = -1 → ( expand_macro src line dlen).2.2 = line) ∧
    (( expand_macro src line dlen).2.2 ≠ line → 0 ≤ ( expand_macro src line dlen).1) ∧
    (0 ≤ ( expand_macro src line dlen).1 →
      (( expand_macro src line dlen).2.1.length : Int) = ( expand_macro src line dlen).1 ∧
      ( expand_macro src line dlen).2.1.length ≤ dlen) := by
  rcases line with _ | ⟨c, s0⟩
  · simp [ expand_macro]
  · by_cases hc : c = '\\'
    · subst hc
      simp only [ expand_macro]
      split_ifs with h1 h2
      · exact ⟨fun _ => rfl, fun hne => absurd rfl hne,
          fun h0 => absurd h0 (of_decide_eq_false rfl)⟩
      · have hlen := expand_inner_len src s0 dlen h2
        exact ⟨fun hm => absurd hm (by omega), fun _ => h2,
          fun _ => ⟨hlen, by omega⟩⟩
      · exact ⟨fun _ => rfl, fun hne => absurd rfl hne,
          fun h0 => absurd h0 (of_decide_eq_false rfl)⟩
    · have hres : expand_macro src (c :: s0) dlen = (0, [], c :: s0) := by
        unfold expand_macro
        rcases s0 <;> simp_all [ expand_macro]
      rw [hres]
      exact ⟨fun hm => absurd hm (of_decide_eq_false rfl), fun hne => by simp,
        fun _ => by simp⟩

/-- A macro invocation context used by witnesses: three declared positional
parameters of which numbers 1 and 3 were supplied non-empty, one qualifier. -/
def srcW : MacSource :=
  ⟨12, 3,
   (fun i => if i = 0 then ("ab").data else if i = 2 then ("xyz").data else []),
   (fun i => if i = 0 then 2 else if i = 2 then 3 else 0),
   1, (fun _ => ("w").data), (fun _ => 1), [("foo").data]⟩

theorem expand_macro_bounds_witness :
    ( expand_macro srcW ['\\', '1'] 5).2.2 ≠ ['\\', '1'] ∧
    0 ≤ ( expand_macro srcW ['\\', '1'] 5).1 ∧
    ( expand_macro srcW ['\\', '1'] 5).2.1.length ≤ 5 := by
  refine ⟨by decide, (expand_macro_bounds srcW ['\\', '1'] 5).2.1 (by decide), ?_⟩
  exact ((expand_macro_bounds srcW ['\\', '1'] 5).2.2
    ((expand_macro_bounds srcW ['\\', '1'] 5).2.1 (by decide))).2

/-- A context whose invocation id needs eight digits. -/
def srcBig : MacSource :=
  ⟨10000000, 0, fun _ => [], fun _ => 0, 0, fun _ => [], fun _ => 0, []⟩

/-- C4 counterexample: on the escape `\@` with buffer length 8 and an
invocation id of 10000000, `expand_macro` sprintf-writes all nine characters
"_10000000" into the 8-byte buffer before the length check, then returns -1
with `*line` unchanged — refuting "never writes more than the
caller-supplied buffer length dlen". -/
theorem expand_macro_writes_past_dlen_cex :
    ( expand_macro srcBig ['\\', '@'] 8).1 = -1 ∧
    ( expand_macro srcBig ['\\', '@'] 8).2.2 = ['\\', '@'] ∧
    ( expand_macro srcBig ['\\', '@'] 8).2.1.length = 9 ∧
    8 < ( expand_macro srcBig ['\\', '@'] 8).2.1.length := by
  decide

/-! Helper computations for the escape-count claims. -/

theorem expand_macro_cons (src : MacSource) (s0 : Str) (dlen : Nat) :
    expand_macro src ('\\' :: s0) dlen
      = (if (expand_inner src s0 dlen).1 ≥ (dlen : Int) then
           (-1, (expand_inner src s0 dlen).2.1, '\\' :: s0)
         else if (expand_inner src s0 dlen).1 ≥ 0 then expand_inner src s0 dlen
         else (-1, (expand_inner src s0 dlen).2.1, '\\' :: s0)) := rfl

theorem expand_macro_of_inner (src : MacSource) (s0 : Str) (dlen : Nat)
    (r : Int × Str × Str) (h : expand_inner src s0 dlen = r)
    (h0 : 0 ≤ r.1) (hlt : r.1 < (dlen : Int)) :
    expand_macro src ('\\' :: s0) dlen = r := by
  rw [expand_macro_cons, h, if_neg (not_le.mpr hlt), if_pos h0]

theorem expand_inner_hash (src : MacSource) (rest : Str) (dlen : Nat)
    (hdl : dlen > 3) :
    expand_inner src ('#' :: rest) dlen
      = (Int.ofNat (decDigits (count_passed_macargs src)).length,
         decDigits (count_passed_macargs src), rest) := by
  have c1 : ¬(('#' : Char) = '\\') := by decide
  have c2 : ¬(('#' : Char) = '@') := by decide
  simp only [expand_inner, List.headD_cons, List.tail_cons]
  rw [if_neg c1, if_neg c2, if_pos trivial, if_pos hdl]

theorem expand_inner_qmark (src : MacSource) (d : Char) (rest : Str) (dlen : Nat)
    (hdl : dlen > 3) (hdg : cIsDigit d = true) :
    expand_inner src ('?' :: d :: rest) dlen
      = ((macro_arg_defined src [d] false).1,
         (macro_arg_defined src [d] false).2, rest) := by
  have c1 : ¬(('?' : Char) = '\\') := by decide
  have c2 : ¬(('?' : Char) = '@') := by decide
  have c3 : ¬(('?' : Char) = '#') := by decide
  have c4 : True ∧ dlen ≥ 1 := ⟨trivial, by omega⟩
  simp only [expand_inner, List.headD_cons, List.tail_cons]
  rw [if_neg c1, if_neg c2, if_neg c3, if_pos c4, if_pos ⟨hdg, hdl⟩]

/-- `\?d` for a concrete digit d: the written flag tests positional slot
`d - '1'` exactly as syntax.c lines 1765-1783 do. -/
theorem macro_arg_defined_digit (src : MacSource) (d : Char)
    (hd : d ∈ (['1', '2', '3', '4', '5', '6', '7', '8', '9'] : List Char)) :
    macro_arg_defined src [d] false
      = (1, [if d.toNat - 49 < src.num_params ∧ d.toNat - 49 < maxmacparams ∧
               0 < src.param_len (d.toNat - 49)
             then '1' else '0']) := by
  fin_cases hd <;> rfl

theorem macro_arg_defined_zero (src : MacSource) :
    macro_arg_defined src ['0'] false
      = (1, [if 0 < src.qual_len 0 then '1' else '0']) := rfl

theorem count_passed_le (src : MacSource) :
    count_passed_macargs src ≤ maxmacparams := by
  unfold count_passed_macargs
  exact le_trans (List.length_filter_le _ _) (by simp)

theorem decDigits_le_two : ∀ n, n ≤ 64 → (decDigits n).length ≤ 2 := by decide

theorem countP_range_eq (p : Nat → Bool) (m n : Nat) (hmn : n ≤ m)
    (h : ∀ i, n ≤ i → p i = false) :
    ((List.range m).filter p).length = ((List.range n).filter p).length := by
  induction m with
  | zero =>
    have h0 : n = 0 := Nat.le_zero.mp hmn
    subst h0; rfl
  | succ k ih =>
    rcases Nat.lt_or_ge n (k + 1) with hlt | hge
    · have hnk : n ≤ k := Nat.lt_succ_iff.mp hlt
      rw [List.range_succ, List.filter_append, List.length_append]
      simp [List.filter, h k hnk]
      exact ih hnk
    · have heq : n = k + 1 := le_antisymm hmn hge
      subst heq; rfl

/-- C3: for every active macro invocation context (with the invariants that
unsupplied positional slots have zero length, the declared parameter count
fits the core's slot bound, and a qualifier counts as supplied exactly when
its text is non-empty): `\#` expands to the decimal count of the positional
arguments supplied with non-empty text; `\?d` for each digit d in 1..9
expands to "1" exactly when positional argument d was supplied with
non-empty text and to "0" otherwise; and `\?0` expands to "1" exactly when
at least one qualifier was supplied. -/
theorem macro_escape_counts (src : MacSource) (dlen : Nat) (d : Char) (rest : Str)
    (hdl : 3 < dlen)
    (hnp : src.num_params ≤ maxmacparams)
    (hempty : ∀ i, src.num_params ≤ i → src.param_len i = 0)
    (hq : 0 < src.qual_len 0 ↔ 0 < src.num_quals)
    (hd : d ∈ (['1', '2', '3', '4', '5', '6', '7', '8', '9'] : List Char)) :
    count_passed_macargs src
      = ((List.range src.num_params).filter (fun i => decide (src.param_len i > 0))).length ∧
    expand_macro src ('\\' :: '#' :: rest) dlen
      = (Int.ofNat (decDigits (count_passed_macargs src)).length,
         decDigits (count_passed_macargs src), rest) ∧
    (( expand_macro src ('\\' :: '?' :: d :: rest) dlen).1 = 1 ∧
     ( expand_macro src ('\\' :: '?' :: d :: rest) dlen).2.2 = rest ∧
     (( expand_macro src ('\\' :: '?' :: d :: rest) dlen).2.1 = ['1']
        ↔ d.toNat - 49 < src.num_params ∧ 0 < src.param_len (d.toNat - 49)) ∧
     (( expand_macro src ('\\' :: '?' :: d :: rest) dlen).2.1 = ['0']
        ↔ ¬(d.toNat - 49 < src.num_params ∧ 0 < src.param_len (d.toNat - 49)))) ∧
    (( expand_macro src ('\\' :: '?' :: '0' :: rest) dlen).1 = 1 ∧
     ( expand_macro src ('\\' :: '?' :: '0' :: rest) dlen).2.2 = rest ∧
     (( expand_macro src ('\\' :: '?' :: '0' :: rest) dlen).2.1 = ['1']
        ↔ 0 < src.num_quals)) := by
  have hdg : cIsDigit d = true := by fin_cases hd <;> decide
  have hone : (0 : Int) ≤ 1 := by omega
  have honelt : (1 : Int) < (dlen : Int) := by omega
  refine ⟨?_, ?_, ?_, ?_⟩
  · exact countP_range_eq _ maxmacparams src.num_params hnp
      (fun i hi => by simp [hempty i hi])
  · refine expand_macro_of_inner src _ dlen _ (expand_inner_hash src rest dlen hdl)
      (Int.ofNat_nonneg _) ?_
    have hb := decDigits_le_two (count_passed_macargs src) (count_passed_le src)
    show Int.ofNat (decDigits (count_passed_macargs src)).length < (dlen : Int)
    simp only [Int.ofNat_eq_natCast]
    omega
  · have hres : expand_macro src ('\\' :: '?' :: d :: rest) dlen
        = (1, [if d.toNat - 49 < src.num_params ∧ d.toNat - 49 < maxmacparams ∧
                 0 < src.param_len (d.toNat - 49) then '1' else '0'], rest) := by
      refine expand_macro_of_inner src _ dlen _ ?_ hone honelt
      rw [expand_inner_qmark src d rest dlen hdl hdg,
          macro_arg_defined_digit src d hd]
    rw [hres]
    by_cases hcond : d.toNat - 49 < src.num_params ∧ 0 < src.param_len (d.toNat - 49)
    · have hfull : d.toNat - 49 < src.num_params ∧ d.toNat - 49 < maxmacparams ∧
          0 < src.param_len (d.toNat - 49) :=
        ⟨hcond.1, lt_of_lt_of_le hcond.1 hnp, hcond.2⟩
      rw [if_pos hfull]
      exact ⟨rfl, rfl, ⟨fun _ => hcond, fun _ => rfl⟩,
        ⟨fun hx => absurd hx (by simp), fun hx => absurd hcond hx⟩⟩
    · have hfull : ¬(d.toNat - 49 < src.num_params ∧ d.toNat - 49 < maxmacparams ∧
          0 < src.param_len (d.toNat - 49)) :=
        fun h => hcond ⟨h.1, h.2.2⟩
      rw [if_neg hfull]
      exact ⟨rfl, rfl, ⟨fun hx => absurd hx (by simp), fun hx => absurd hx hcond⟩,
        ⟨fun _ => hcond, fun _ => rfl⟩⟩
  · have hres : expand_macro src ('\\' :: '?' :: '0' :: rest) dlen
        = (1, [if 0 < src.qual_len 0 then '1' else '0'], rest) := by
      refine expand_macro_of_inner src _ dlen _ ?_ hone honelt
      rw [expand_inner_qmark src '0' rest dlen hdl (by decide),
          macro_arg_defined_zero src]
    rw [hres]
    by_cases hcond : 0 < src.qual_len 0
    · rw [if_pos hcond]
      exact ⟨rfl, rfl, fun _ => hq.mp hcond, fun _ => rfl⟩
    · rw [if_neg hcond]
      exact ⟨rfl, rfl, fun hx => absurd hx (by simp), fun hx => absurd (hq.mpr hx) hcond⟩

theorem macro_escape_counts_witness :
    count_passed_macargs srcW = 2 ∧
    expand_macro srcW ('\\' :: '#' :: []) 10 = (1, ['2'], []) ∧
    ( expand_macro srcW ('\\' :: '?' :: '3' :: []) 10).2.1 = ['1'] ∧
    ( expand_macro srcW ('\\' :: '?' :: '0' :: []) 10).2.1 = ['1'] := by
  have hempty : ∀ i, srcW.num_params ≤ i → srcW.param_len i = 0 := by
    intro i hi
    have hi' : 3 ≤ i := hi
    show (if i = 0 then 2 else if i = 2 then 3 else 0) = 0
    split_ifs with h0 h2
    · omega
    · omega
    · rfl
  have h := macro_escape_counts srcW 10 '3' [] (by decide) (by decide) hempty
    (by decide) (by decide)
  refine ⟨by decide, ?_, ?_, ?_⟩
  · rw [h.2.1]; decide
  · exact (h.2.2.1.2.2.1).mpr (by decide)
  · exact (h.2.2.2.2.2).mpr (by decide)

/-! Anonymous-label reference arithmetic (C2). -/

theorem anonLoop_stop (rest : Str) (r : Nat)
    (h1 : rest.headD 'x' ≠ '+') (h2 : rest.headD 'x' ≠ '-') :
    anonLoop rest r = (r, rest) := by
  cases rest with
  | nil => rfl
  | cons c t =>
    simp only [List.headD_cons] at h1 h2
    simp only [anonLoop, if_neg h1, if_neg h2]

theorem anonLoop_run (ms rest : Str) (r : Nat)
    (hms : ∀ x ∈ ms, x = '+' ∨ x = '-')
    (h1 : rest.headD 'x' ≠ '+') (h2 : rest.headD 'x' ≠ '-')
    (hr : r < UW) :
    anonLoop (ms ++ rest) r
      = ((((r : Int) + ms.countP (fun x => decide (x = '+'))
           - ms.countP (fun x => decide (x = '-'))) % (UW : Int)).toNat, rest) := by
  induction ms generalizing r with
  | nil =>
    rw [List.nil_append, anonLoop_stop rest r h1 h2]
    refine Prod.ext ?_ rfl
    show r = (((r : Int) + List.countP (fun x => decide (x = '+')) []
        - List.countP (fun x => decide (x = '-')) []) % (UW : Int)).toNat
    simp [UW] at hr ⊢ <;> omega
  | cons c ms ih =>
    have hms' : ∀ x ∈ ms, x = '+' ∨ x = '-' :=
      fun x hx => hms x (List.mem_cons_of_mem _ hx)
    rcases hms c (List.mem_cons_self _ _) with hc | hc <;> subst hc
    · rw [show anonLoop (('+' :: ms) ++ rest) r
            = anonLoop (ms ++ rest) ((r + 1) % UW) from rfl]
      rw [ih ((r + 1) % UW) hms' (Nat.mod_lt _ (by decide))]
      refine Prod.ext ?_ rfl
      show ((((((r + 1) % UW : Nat)) : Int)
          + ms.countP (fun x => decide (x = '+'))
          - ms.countP (fun x => decide (x = '-'))) % (UW : Int)).toNat
        = ((((r : Int)) + List.countP (fun x => decide (x = '+')) ('+' :: ms)
          - List.countP (fun x => decide (x = '-')) ('+' :: ms)) % (UW : Int)).toNat
      simp [List.countP_cons, UW] at hr ⊢ <;> omega
    · have hm : ¬(('-' : Char) = '+') := by decide
      have hst : anonLoop (('-' :: ms) ++ rest) r
          = anonLoop (ms ++ rest) ((r + (UW - 1)) % UW) := by
        rw [List.cons_append]
        simp only [anonLoop]
        rw [if_neg hm, if_pos trivial]
      rw [hst, ih ((r + (UW - 1)) % UW) hms' (Nat.mod_lt _ (by decide))]
      refine Prod.ext ?_ rfl
      show ((((((r + (UW - 1)) % UW : Nat)) : Int)
          + ms.countP (fun x => decide (x = '+'))
          - ms.countP (fun x => decide (x = '-'))) % (UW : Int)).toNat
        = ((((r : Int)) + List.countP (fun x => decide (x = '+')) ('-' :: ms)
          - List.countP (fun x => decide (x = '-')) ('-' :: ms)) % (UW : Int)).toNat
      simp [List.countP_cons, UW] at hr ⊢ <;> omega

/-- C2: a bare ':' at the start of a line defines a new anonymous label —
the counter is incremented first (with the unsigned 32-bit wrap of the C
`++anon_labno`) and the incremented value is embedded in the canonical
name; and a reference ':' followed by a run of '+'/'-' markers resolves to
the value that starts from the current counter plus one when the first
marker is '+' (the current counter when it is '-') and is then incremented
by each further '+' and decremented by each further '-' (in the unsigned
32-bit arithmetic of the source), the canonical name embedding the
resulting integer. -/
theorem anon_label_def_ref :
    (∀ (rest : Str) (anon : Nat),
      parse_label_or_pc local_char (':' :: rest) anon
        = (some (make_local_label [':'] (decDigits ((anon + 1) % UW))),
           skip rest, (anon + 1) % UW)) ∧
    (∀ (anon : Nat) (c : Char) (ms rest : Str),
      (c = '+' ∨ c = '-') → (∀ x ∈ ms, x = '+' ∨ x = '-') →
      rest.headD 'x' ≠ '+' → rest.headD 'x' ≠ '-' → anon < UW →
      get_local_label local_char anon (':' :: c :: (ms ++ rest))
        = some (make_local_label [':']
            (decDigits ((((if c = '+' then (anon : Int) + 1 else (anon : Int))
              + ms.countP (fun x => decide (x = '+'))
              - ms.countP (fun x => decide (x = '-'))) % (UW : Int)).toNat)),
           skip rest)) := by
  refine ⟨fun rest anon => rfl, ?_⟩
  intro anon c ms rest hc hms h1 h2 ha
  have hbf : (ISIDSTART ':' || cIsDigit ':') = false := by decide
  have hsl : skip_local (':' :: c :: (ms ++ rest)) = none := by
    simp only [skip_local, hbf, Bool.false_eq_true, if_false]
  have hstep : get_local_label local_char anon (':' :: c :: (ms ++ rest))
      = (if c = '+' ∨ c = '-' then
          some (make_local_label [':']
              (decDigits (anonLoop (ms ++ rest)
                 (if c = '+' then (anon + 1) % UW else anon)).1),
            skip (anonLoop (ms ++ rest)
                 (if c = '+' then (anon + 1) % UW else anon)).2)
         else none) := by
    simp only [get_local_label, hsl]
  rcases hc with hc | hc <;> subst hc
  · rw [hstep, if_pos (Or.inl rfl), if_pos rfl,
      anonLoop_run ms rest ((anon + 1) % UW) hms h1 h2 (Nat.mod_lt _ (by decide))]
    have hv : ((((anon + 1) % UW : Nat) : Int)
          + ms.countP (fun x => decide (x = '+'))
          - ms.countP (fun x => decide (x = '-'))) % (UW : Int)
        = (((anon : Int) + 1)
          + ms.countP (fun x => decide (x = '+'))
          - ms.countP (fun x => decide (x = '-'))) % (UW : Int) := by
      simp only [UW]
      omega
    rw [hv]
    rfl
  · rw [hstep, if_pos (Or.inr rfl),
      if_neg (show ¬(('-' : Char) = '+') from of_decide_eq_false rfl),
      anonLoop_run ms rest anon hms h1 h2 ha]
    rw [if_neg (show ¬(('-' : Char) = '+') from of_decide_eq_false rfl)]

theorem anon_label_def_ref_witness :
    parse_label_or_pc local_char [':'] 5
      = (some (make_local_label [':'] (decDigits 6)), [], 6) ∧
    get_local_label local_char 1 (':' :: '+' :: ([] ++ []))
      = some (make_local_label [':'] (decDigits 2), []) := by
  constructor
  · have h := (anon_label_def_ref).1 [] 5
    simpa [UW, skip] using h
  · have h := (anon_label_def_ref).2 1 '+' [] [] (Or.inl rfl) (by simp)
      (by decide) (by decide) (by decide)
    rw [h]
    decide

/-! Structure instantiation (C6). -/

theorem structLoop_eq_spec (atoms : List SAtom) (s : Str) :
    structLoop atoms s = instantiateSpec atoms (splitSegs (nFields atoms) s) := by
  induction atoms generalizing s with
  | nil => rfl
  | cons p rest ih =>
    by_cases hf : isField p = true
    · have hn : nFields (p :: rest) = nFields rest + 1 := by
        simp [nFields, List.countP_cons, hf]
      rw [hn]
      simp only [structLoop, instantiateSpec, splitSegs, hf, if_true,
        List.headD_cons, List.tail_cons]
      rw [ih]
    · have hf' : isField p = false := by simpa using hf
      have hn : nFields (p :: rest) = nFields rest := by
        simp [nFields, List.countP_cons, hf']
      by_cases hi : p = SAtom.instruction
      · subst hi
        rw [hn]
        simp only [structLoop, instantiateSpec, hf', Bool.false_eq_true, if_false,
          if_pos rfl]
        rw [ih]
      · rw [hn]
        simp only [structLoop, instantiateSpec, hf', Bool.false_eq_true, if_false,
          if_neg hi]
        exact ih s

/-- C6: `execute_struct` yields nothing (returns 0) exactly when the name
is not a known structure template; otherwise it instantiates the template
per the specification — template fields are walked in order against the
top-level comma-separated operand segments, a non-empty segment
re-initialises the field while an empty one emits a clone of the stored
default atom, an oversized string literal is truncated to the field size
after the cut-last-chars diagnostic (not a failure), and an instruction
atom inside the template raises its diagnostic without aborting the walk
over the remaining fields. -/
theorem execute_struct_correct (tab : StructTab) (nm : Str) (s : Str) :
    (execute_struct tab nm s = none ↔ find_structure tab nm = none) ∧
    (∀ atoms, find_structure tab nm = some atoms →
      execute_struct tab nm s
        = some (instantiateSpec atoms (splitSegs (nFields atoms) s))) ∧
    (∀ align (db : DBk) (seg : Str), 0 < db.size →
      (seg.headD '\x00' = '\"' ∨ seg.headD '\x00' = '\'') →
      db.size < (parse_string seg).length →
      reinitField (SAtom.data align db) seg
        = [SEv.sdiag 21, SEv.dataAtom ((parse_string seg).take db.size) align]) ∧
    (∀ (rest : List SAtom) (s2 : Str),
      structLoop (SAtom.instruction :: rest) s2
        = SEv.sdiag 20 :: structLoop rest s2) := by
  refine ⟨?_, ?_, ?_, ?_⟩
  · unfold execute_struct
    cases h : find_structure tab nm <;> simp [h]
  · intro atoms h
    have hx : execute_struct tab nm s = some (structLoop atoms s) := by
      unfold execute_struct
      rw [h]
    rw [hx, structLoop_eq_spec]
  · intro align db seg h0 hq hlen
    show (if db.size = 0 then [SEv.dataAtom [] align]
      else if seg.headD '\x00' = '\"' ∨ seg.headD '\x00' = '\'' then
        (if (parse_string seg).length = 0 then
          [SEv.dataAtom (List.replicate db.size 0) align]
        else
          (if (parse_string seg).length > db.size then [SEv.sdiag 21] else []) ++
          [SEv.dataAtom ((parse_string seg).take db.size
            ++ List.replicate (db.size - (parse_string seg).length) 0) align])
      else [SEv.dataAtomConst db.size (parse_constexpr seg).1 align]) = _
    rw [if_neg (by omega), if_pos hq, if_neg (by omega), if_pos hlen,
      Nat.sub_eq_zero_of_le (Nat.le_of_lt hlen)]
    simp
  · intro rest s2
    rfl

/-- The two-field template of the specification's §8 example:
a word field with default 0 and a byte field with default 0. -/
def tmplW : List SAtom := [SAtom.data 1 ⟨2, [0, 0]⟩, SAtom.data 1 ⟨1, [0]⟩]

theorem execute_struct_correct_witness :
    find_structure [(("pt").data, tmplW)] (("pt").data) = some tmplW ∧
    execute_struct [(("pt").data, tmplW)] (("pt").data) ((",5").data)
      = some (instantiateSpec tmplW (splitSegs (nFields tmplW) ((",5").data))) ∧
    instantiateSpec tmplW (splitSegs (nFields tmplW) ((",5").data))
      = [SEv.cloneAtom (SAtom.data 1 ⟨2, [0, 0]⟩), SEv.dataAtomConst 1 5 1] := by
  exact ⟨by decide,
    (execute_struct_correct [(("pt").data, tmplW)] (("pt").data) ((",5").data)).2.1
      tmplW (by decide),
    by decide⟩

/-! Identifier-plus-anonymous-reference lines (C9). -/

theorem idstart_facts (h : Char) (hh : cIsAlpha h = true ∨ h = '_') :
    ISIDSTART h = true ∧ h ≠ ':' ∧ cIsSpace h = false := by
  rcases hh with h1 | h1
  · refine ⟨by simp [ISIDSTART, h1], fun heq => ?_, ?_⟩
    · rw [heq] at h1
      exact absurd h1 (by decide)
    · by_contra hx
      have hx' : h = ' ' ∨ h = '\t' ∨ h = '\n' ∨ h = '\x0d' ∨ h = '\x0b' ∨ h = '\x0c' := by
        have hb : cIsSpace h = true := by simpa using hx
        simpa [cIsSpace] using hb
      rcases hx' with rfl | rfl | rfl | rfl | rfl | rfl <;> exact absurd h1 (by decide)
  · subst h1
    exact ⟨by decide, by decide, by decide⟩

theorem idchar_ne (x : Char) (hx : ISIDCHAR x = true) : x ≠ ':' ∧ x ≠ '$' :=
  ⟨fun heq => by rw [heq] at hx; exact absurd hx (by decide),
   fun heq => by rw [heq] at hx; exact absurd hx (by decide)⟩

theorem takeWhile_append_stop (p : Char → Bool) (l : Str) (c : Char) (r : Str)
    (hl : ∀ x ∈ l, p x = true) (hc : p c = false) :
    (l ++ c :: r).takeWhile p = l := by
  induction l with
  | nil => simp [List.takeWhile_cons, hc]
  | cons a u ih =>
    simp [List.takeWhile_cons, hl a (List.mem_cons_self _ _),
      ih (fun x hx => hl x (List.mem_cons_of_mem _ hx))]

theorem dropWhile_append_stop (p : Char → Bool) (l : Str) (c : Char) (r : Str)
    (hl : ∀ x ∈ l, p x = true) (hc : p c = false) :
    (l ++ c :: r).dropWhile p = c :: r := by
  induction l with
  | nil => simp [List.dropWhile_cons, hc]
  | cons a u ih =>
    simp [List.dropWhile_cons, hl a (List.mem_cons_self _ _),
      ih (fun x hx => hl x (List.mem_cons_of_mem _ hx))]

theorem getLastD_mem (l : Str) (d : Char) (hne : l ≠ []) : l.getLastD d ∈ l := by
  induction l generalizing d with
  | nil => exact absurd rfl hne
  | cons a u ih =>
    rw [List.getLastD_cons]
    cases u with
    | nil => simp [List.getLastD]
    | cons b v => exact List.mem_cons_of_mem _ (ih a (by simp))

theorem skip_cons_nospace (h : Char) (X : Str) (hs : cIsSpace h = false) :
    skip (h :: X) = h :: X := by
  simp [skip, List.dropWhile_cons, hs]

/-- C9: a line whose leading identifier is immediately followed by ':' and
then a '+' or '-' marker is not a label definition: `parse_label_or_pc`
returns NULL and leaves the start pointer (and the anonymous counter)
unchanged, so the token is treated as an operand containing an
anonymous-label reference. -/
theorem label_colon_sign_returns_null (h : Char) (t : Str) (c : Char) (rest : Str)
    (anon : Nat) (lc : Char)
    (hh : cIsAlpha h = true ∨ h = '_')
    (hall : ∀ x ∈ h :: t, ISIDCHAR x = true)
    (hc : c = '+' ∨ c = '-')
    (hnlc : h ≠ lc) :
    parse_label_or_pc lc ((h :: t) ++ ':' :: c :: rest) anon
      = (none, (h :: t) ++ ':' :: c :: rest, anon) := by
  obtain ⟨hID, hcol, hsp⟩ := idstart_facts h hh
  have hallt : ∀ x ∈ t, ISIDCHAR x = true :=
    fun x hx => hall x (List.mem_cons_of_mem _ hx)
  have hdw : (t ++ ':' :: c :: rest).dropWhile ISIDCHAR = ':' :: c :: rest :=
    dropWhile_append_stop _ t ':' (c :: rest) hallt (by decide)
  have htw : (t ++ ':' :: c :: rest).takeWhile ISIDCHAR = t :=
    takeWhile_append_stop _ t ':' (c :: rest) hallt (by decide)
  have hp : skip_local (h :: (t ++ ':' :: c :: rest)) = some (':' :: c :: rest) := by
    simp only [skip_local]
    rw [if_pos (by simp [hID]), hdw]
  have hlen : (h :: (t ++ ':' :: c :: rest)).length - (':' :: c :: rest).length
      = t.length + 1 := by
    simp [List.length_append]
    omega
  have hglob : (h :: (t ++ ':' :: c :: rest)).take
      ((h :: (t ++ ':' :: c :: rest)).length - (':' :: c :: rest).length) = h :: t := by
    rw [hlen, List.take_succ_cons]
    exact congrArg _ (List.take_left t _)
  have hslc : skip_local (c :: rest) = none := by
    simp only [skip_local]
    rw [if_neg (by rcases hc with rfl | rfl <;> decide)]
  have hlast : ((h :: t) : Str).getLastD ' ' ≠ '$' :=
    (idchar_ne _ (hall _ (getLastD_mem _ ' ' (by simp)))).2
  have hgl : get_local_label lc anon (h :: (t ++ ':' :: c :: rest)) = none := by
    simp only [get_local_label, hp, List.headD_cons]
    rw [if_pos ⟨trivial, by simp [hID], hnlc, by rw [hglob]; exact hlast⟩]
    simp only [List.tail_cons, hslc]
  have hps : parse_symbol lc anon (h :: (t ++ ':' :: c :: rest))
      = some (h :: t, ':' :: c :: rest) := by
    simp only [parse_symbol, hgl, parse_identifier]
    rw [if_pos hID, htw, hdw]
  show parse_label_or_pc lc (h :: (t ++ ':' :: c :: rest)) anon
      = (none, h :: (t ++ ':' :: c :: rest), anon)
  simp only [parse_label_or_pc, List.headD_cons]
  rw [if_neg hcol, skip_cons_nospace h _ hsp, hps]
  simp only [List.tail_cons, List.headD_cons]
  rw [skip_cons_nospace ':' _ (by decide)]
  simp only [List.headD_cons, List.tail_cons]
  rw [if_pos trivial, if_pos hc]

theorem label_colon_sign_returns_null_witness :
    parse_label_or_pc local_char ((('f' :: ("oo").data) ++ ':' :: '+' :: (" move").data)) 3
      = (none, (('f' :: ("oo").data) ++ ':' :: '+' :: (" move").data), 3) :=
  label_colon_sign_returns_null 'f' (("oo").data) '+' ((" move").data) 3 local_char
    (by decide) (by decide) (by decide) (by decide)

/-- C10: a label followed by the `rs` offset directive.  Without a
'.'-qualifier the element size defaults to 2 (word): the new offset is
`__RS + expr*2`.  With an invalid qualifier letter the invalid-extension
diagnostic (`syntax_error(1)`, event `diag 1`) is reported and processing
continues with element size 1.  In both cases the label is still equated
to the pre-increment offset value and the new offset expression is still
produced: the error does not abort the directive. -/
theorem rs_offset_qualifier_defaults (lab : Str) (rs0 : Expr) (a b q : Char)
    (tl0 r2 : Str) (e e2 : Expr) (s1 s2 : Str)
    (hq1 : tl0.headD '\x00' ≠ '.')
    (h1 : ISEOL (skip tl0) = false)
    (hpe1 : parse_expr_tmplab (skip tl0) = (e, s1))
    (hql : cLower q ≠ 'b' ∧ cLower q ≠ 'w' ∧ cLower q ≠ 'l')
    (h2 : ISEOL (skip r2) = false)
    (hpe2 : parse_expr_tmplab (skip r2) = (e2, s2)) :
    new_setoffset (some lab) rs0 false (a :: b :: tl0) 1
      = (Expr.add rs0 (Expr.mul e (Expr.num 2)), [Event.equate lab rs0], s1)
    ∧ new_setoffset (some lab) rs0 false (a :: b :: '.' :: q :: r2) 1
      = (Expr.add rs0 (Expr.mul e2 (Expr.num 1)),
         [Event.diag 1, Event.equate lab rs0], s2) := by
  constructor
  · have hd : ((a :: b :: tl0).drop 2) = tl0 := rfl
    simp only [new_setoffset, hd]
    rw [if_neg hq1]
    simp only [new_setoffset_size, h1, Bool.not_false, if_pos trivial, hpe1]
    norm_num
  · have hd3 : ((a :: b :: '.' :: q :: r2).drop 3).headD '\x00' = q := rfl
    have hd4 : ((a :: b :: '.' :: q :: r2).drop 4) = r2 := rfl
    simp only [new_setoffset, hd3, hd4, List.drop_succ_cons, List.drop_zero,
      List.headD_cons]
    rw [if_pos trivial, if_neg hql.1, if_neg hql.2.1, if_neg hql.2.2]
    simp only [new_setoffset_size, h2, Bool.not_false, if_pos trivial, hpe2]
    norm_num

theorem rs_offset_qualifier_defaults_witness :
    new_setoffset (some (("X").data)) (Expr.num 4) false (('r' :: 's' :: (" 2").data)) 1
      = (Expr.add (Expr.num 4) (Expr.mul (Expr.num 2) (Expr.num 2)),
         [Event.equate (("X").data) (Expr.num 4)], [])
    ∧ new_setoffset (some (("X").data)) (Expr.num 4) false
        ('r' :: 's' :: '.' :: 'q' :: (" 3").data) 1
      = (Expr.add (Expr.num 4) (Expr.mul (Expr.num 3) (Expr.num 1)),
         [Event.diag 1, Event.equate (("X").data) (Expr.num 4)], []) :=
  rs_offset_qualifier_defaults (("X").data) (Expr.num 4) 'r' 's' 'q'
    ((" 2").data) ((" 3").data) (Expr.num 2) (Expr.num 3) [] []
    (by decide) (by decide) (by decide) (by decide) (by decide) (by decide)

/-- C8: once the stop-parsing flag is set, every subsequent line is
silently ignored by the driver — no label recognition, directive dispatch,
macro execution or instruction construction happens, and the state no
longer changes — yet `cond_check` still runs at end of input.  The flag is
set by `fail` (with diagnostic 11), by `end` (silently), and by an
`inform` directive whose constant severity expression is 3 (after its
fatal-message diagnostic 19). -/
theorem parse_end_stops_parsing (st st2 : PState) (hstop : st.parse_end = true) :
    (∀ l, parseLine st l = (st, []))
    ∧ (∀ lines, parse st lines = (st, [Event.condCheck (decide (st.cond ≠ []))]))
    ∧ (∀ nm s, runDir nm DirTag.dFail s st2
        = ({ st2 with parse_end := true }, [Event.diag 11]))
    ∧ (∀ nm s, runDir nm DirTag.dEnd s st2 = ({ st2 with parse_end := true }, []))
    ∧ (∀ nm s r t msg r2, parse_constexpr s = (3, r) → skip r = ',' :: t →
        parse_name (skip t) = some (msg, r2) →
        runDir nm DirTag.dInform s st2
          = ({ st2 with parse_end := true },
             Event.diag 19 :: eol st2.allow_spaces r2)) := by
  have hline : ∀ l, parseLine st l = (st, []) := fun l => by
    simp [parseLine, hstop]
  refine ⟨hline, ?_, fun nm s => rfl, fun nm s => rfl, ?_⟩
  · intro lines
    have hsteps : parseSteps st lines = (st, []) := by
      induction lines with
      | nil => rfl
      | cons l ls ih => simp [parseSteps, hline l, ih]
    simp [parse, hsteps, cond_check]
  · intro nm s r t msg r2 hpc hr hpn
    simp only [runDir, hpc, hr, hpn]
    norm_num

theorem parse_end_stops_parsing_witness :
    parse { stW with parse_end := true } [(" move d0,d1").data]
      = ({ stW with parse_end := true }, [Event.condCheck false]) :=
  (parse_end_stops_parsing { stW with parse_end := true } stW rfl).2.1
    [(" move d0,d1").data]

/-! Inactive-conditional scanning (C1). -/

theorem cond_else_snd (c : CondStack) :
    (cond_else c).2 = [] ∨ (cond_else c).2 = [Event.cdiag] := by
  cases c with
  | nil => exact Or.inr rfl
  | cons f r =>
    simp only [cond_else]
    split_ifs <;> simp

theorem cond_endif_snd (c : CondStack) :
    (cond_endif c).2 = [] ∨ (cond_endif c).2 = [Event.cdiag] := by
  cases c with
  | nil => exact Or.inr rfl
  | cons f r => exact Or.inl rfl

theorem cond_elseif_snd (b : Bool) (c : CondStack) :
    (cond_elseif b c).2 = [] ∨ (cond_elseif b c).2 = [Event.cdiag] := by
  cases c with
  | nil => exact Or.inr rfl
  | cons f r =>
    simp only [cond_elseif]
    split_ifs <;> simp

theorem eval_ifexp_evs (s : Str) (c : Nat) :
    (eval_ifexp s c).2.2 = [Event.evalGuard]
    ∨ (eval_ifexp s c).2.2 = [Event.evalGuard, Event.gdiag 30] := by
  simp only [eval_ifexp]
  cases eval_expr (parse_expr_tmplab s).1 <;> simp

theorem eval_ifexp_guard_mem (s : Str) (c : Nat) :
    Event.evalGuard ∈ (eval_ifexp s c).2.2 := by
  rcases eval_ifexp_evs s c with h | h <;> rw [h] <;> simp

/-- C1 (amended): while conditional assembly is inactive and parsing has
not been stopped, the driver handles every line by the scanning branch
alone: it reacts only to the `if*`/`else`/`elseif`/`endif` directive
families, changing nothing but the conditional stack and the
anonymous-label counter; it dispatches no other directive handler and
builds no label, macro, structure or instruction, its only events being
guard evaluation, the non-constant-guard diagnostic and
conditional-engine diagnostics.  However — contrary to the claim's "does
not evaluate guard expressions" — the guard of an `elseif` IS evaluated:
the `evalGuard` event occurs exactly when the scanned directive is
`elseif`. -/
theorem parse_skipmode_scan (st : PState) (line : Str)
    (hstop : st.parse_end = false) (hact : cond_state st.cond = false) :
    parseLine st line = skipBranch st line
    ∧ (skipBranch st line).1.parse_end = st.parse_end
    ∧ (skipBranch st line).1.symtab = st.symtab
    ∧ (skipBranch st line).1.macros = st.macros
    ∧ (skipBranch st line).1.structs = st.structs
    ∧ (skipBranch st line).1.rs = st.rs
    ∧ (∀ ev ∈ (skipBranch st line).2,
        ev = Event.evalGuard ∨ ev = Event.cdiag ∨ ∃ n, ev = Event.gdiag n)
    ∧ ((skipBranch st line).1.cond = st.cond
       ∨ (skipBranch st line).1.cond = cond_skipif st.cond
       ∨ (skipBranch st line).1.cond = (cond_else st.cond).1
       ∨ (skipBranch st line).1.cond = (cond_endif st.cond).1
       ∨ ∃ b, (skipBranch st line).1.cond = (cond_elseif b st.cond).1)
    ∧ (Event.evalGuard ∈ (skipBranch st line).2
       ↔ ∃ i nm rest,
           check_directive (parse_label_or_pc local_char line st.anon).2.1
             = some ((i, nm, DirTag.dElseif), rest)
           ∧ hasIfPfx nm = false) := by
  refine ⟨by simp [parseLine, hstop, hact], ?_⟩
  cases hcd : check_directive (parse_label_or_pc local_char line st.anon).2.1 with
  | none =>
    have hsb : skipBranch st line
        = ({ st with anon := (parse_label_or_pc local_char line st.anon).2.2 }, []) := by
      simp only [skipBranch, hcd]
    rw [hsb]
    exact ⟨rfl, rfl, rfl, rfl, rfl, by simp, Or.inl rfl, by simp [hcd]⟩
  | some pr =>
    obtain ⟨⟨i, nm, tg⟩, rest⟩ := pr
    by_cases hpfx : hasIfPfx nm = true
    · have hsb : skipBranch st line
          = ({ st with anon := (parse_label_or_pc local_char line st.anon).2.2, cond := cond_skipif st.cond }, []) := by
        simp only [skipBranch, hcd]
        rw [if_pos hpfx]
      rw [hsb]
      exact ⟨rfl, rfl, rfl, rfl, rfl, by simp, Or.inr (Or.inl rfl),
        by simp [hcd, hpfx]⟩
    · cases tg <;>
      first
      | (have hsb : skipBranch st line
              = ({ st with anon := (parse_label_or_pc local_char line st.anon).2.2 }, []) := by
           simp only [skipBranch, hcd]
           rw [if_neg hpfx]
         rw [hsb]
         exact ⟨rfl, rfl, rfl, rfl, rfl, by simp, Or.inl rfl, by simp [hcd]⟩)
      | (have hsb : skipBranch st line
              = ({ st with anon := (parse_label_or_pc local_char line st.anon).2.2, cond := (cond_else st.cond).1 }, (cond_else st.cond).2) := by
           simp only [skipBranch, hcd]
           rw [if_neg hpfx]
         rw [hsb]
         refine ⟨rfl, rfl, rfl, rfl, rfl, ?_, Or.inr (Or.inr (Or.inl rfl)), ?_⟩
         · intro ev hev
           rcases cond_else_snd st.cond with h | h <;> rw [h] at hev <;> simp at hev
           exact Or.inr (Or.inl hev)
         · rcases cond_else_snd st.cond with h | h <;> rw [h] <;> simp [hcd])
      | (have hsb : skipBranch st line
              = ({ st with anon := (parse_label_or_pc local_char line st.anon).2.2, cond := (cond_endif st.cond).1 }, (cond_endif st.cond).2) := by
           simp only [skipBranch, hcd]
           rw [if_neg hpfx]
         rw [hsb]
         refine ⟨rfl, rfl, rfl, rfl, rfl, ?_, Or.inr (Or.inr (Or.inr (Or.inl rfl))), ?_⟩
         · intro ev hev
           rcases cond_endif_snd st.cond with h | h <;> rw [h] at hev <;> simp at hev
           exact Or.inr (Or.inl hev)
         · rcases cond_endif_snd st.cond with h | h <;> rw [h] <;> simp [hcd])
      | (have hsb : skipBranch st line
              = ({ st with anon := (parse_label_or_pc local_char line st.anon).2.2, cond := (cond_elseif (eval_ifexp (skip rest) 1).1 st.cond).1 },
                 (eval_ifexp (skip rest) 1).2.2
                   ++ (cond_elseif (eval_ifexp (skip rest) 1).1 st.cond).2) := by
           simp only [skipBranch, hcd]
           rw [if_neg hpfx]
         rw [hsb]
         refine ⟨rfl, rfl, rfl, rfl, rfl, ?_,
           Or.inr (Or.inr (Or.inr (Or.inr ⟨_, rfl⟩))), ?_⟩
         · intro ev hev
           rcases List.mem_append.mp hev with h | h
           · rcases eval_ifexp_evs (skip rest) 1 with he | he <;> rw [he] at h <;>
               simp at h
             · exact Or.inl h
             · rcases h with h | h
               · exact Or.inl h
               · exact Or.inr (Or.inr ⟨30, h⟩)
           · rcases cond_elseif_snd _ st.cond with he | he <;> rw [he] at h <;> simp at h
             exact Or.inr (Or.inl h)
         · constructor
           · intro _
             exact ⟨i, nm, rest, rfl, by simpa using hpfx⟩
           · intro _
             exact List.mem_append.mpr (Or.inl (eval_ifexp_guard_mem _ _)))

theorem parse_skipmode_scan_witness :
    parseLine { stW with cond := [⟨false, false, false⟩] } ((" nop").data)
      = skipBranch { stW with cond := [⟨false, false, false⟩] } ((" nop").data) :=
  (parse_skipmode_scan { stW with cond := [⟨false, false, false⟩] }
    ((" nop").data) rfl rfl).1

/-- C1, counterexample to the claim as stated: in an inactive conditional
region the driver DOES evaluate the guard expression of an `elseif`
directive — processing the line emits the `evalGuard` event. -/
theorem parse_skipmode_elseif_evaluates_guard :
    Event.evalGuard ∈
      (parseLine { stW with cond := [⟨false, false, false⟩] }
        ((" elseif 1").data)).2 := by
  decide

end VasmNaoto
